import Mathlib

/-!
Shallow embedding of the PersonaExtract core (pdf_parser.py, section_extractor.py,
persona_matcher.py) together with proofs about its behaviour.

Modelling conventions:
* Python strings are Lean `String`s; character-level work happens on `List Char`.
* Python's Unicode-aware character classes (`\w`, `\d`, `\s`, `str.lower`) are
  modelled on the character ranges actually exercised by the program's data
  (ASCII, Latin-1 letters, Cyrillic); all other characters map to themselves.
* Python floats are modelled as exact rationals for the raw keyword sums and as
  real numbers once `math.log` enters (length normalisation, score blending).
* Python's stable `sort`/`sorted` with `reverse=True` is modelled by
  `List.insertionSort` with the non-strict descending relation, which has the
  same stable-descending semantics.
* `list(set(...))` has unspecified element order in CPython; it is modelled as
  first-occurrence deduplication.  All properties proved about such lists are
  order-insensitive.
-/

/-! ### Character classes (ASCII-centred model of Python `re` classes) -/

def isDigitCh (c : Char) : Bool := decide ('0' ≤ c) && decide (c ≤ '9')

def isUpperCh (c : Char) : Bool := decide ('A' ≤ c) && decide (c ≤ 'Z')

def isLowerCh (c : Char) : Bool := decide ('a' ≤ c) && decide (c ≤ 'z')

def isAsciiAlphaCh (c : Char) : Bool := isUpperCh c || isLowerCh c

def isWordCh (c : Char) : Bool := isAsciiAlphaCh c || isDigitCh c || decide (c = '_')

def isSpaceCh (c : Char) : Bool :=
  decide (c = ' ') || decide (c = '\t') || decide (c = '\n') || decide (c = '\r') ||
  decide (c = '\x0b') || decide (c = '\x0c')

/-- Model of Python `str.lower` for one character: ASCII `A`–`Z`, the Latin-1
uppercase letters `À`–`Þ` (excluding `×`), and Cyrillic `А`–`Я`/`Ё` are lowered;
every other character is unchanged. -/
def toLowerCh (c : Char) : Char :=
  if 65 ≤ c.toNat ∧ c.toNat ≤ 90 then Char.ofNat (c.toNat + 32)
  else if 192 ≤ c.toNat ∧ c.toNat ≤ 222 ∧ c.toNat ≠ 215 then Char.ofNat (c.toNat + 32)
  else if 1040 ≤ c.toNat ∧ c.toNat ≤ 1071 then Char.ofNat (c.toNat + 32)
  else if c.toNat = 1025 then Char.ofNat 1105
  else c

def pyLowerL (l : List Char) : List Char := l.map toLowerCh

def pyLower (s : String) : String := ⟨pyLowerL s.data⟩

/-- Model of Python `str.strip()`: drop leading and trailing whitespace. -/
def pyStripL (l : List Char) : List Char :=
  ((l.dropWhile isSpaceCh).reverse.dropWhile isSpaceCh).reverse

def pyStrip (s : String) : String := ⟨pyStripL s.data⟩

def pyTake (n : Nat) (s : String) : String := ⟨s.data.take n⟩

/-- Accumulator pass for `pySplitWS`: `acc` is the current word, reversed. -/
def splitWSAux : List Char → List Char → List (List Char)
  | [], acc => if acc.isEmpty then [] else [acc.reverse]
  | c :: cs, acc =>
    if isSpaceCh c then
      if acc.isEmpty then splitWSAux cs [] else acc.reverse :: splitWSAux cs []
    else splitWSAux cs (c :: acc)

/-- Model of Python `str.split()` (split on whitespace runs, dropping empties). -/
def pySplitWS (l : List Char) : List (List Char) := splitWSAux l []

/-- Model of Python's substring test `needle in hay`. -/
def containsSubL (hay needle : List Char) : Bool :=
  if needle.isPrefixOf hay then true
  else
    match hay with
    | [] => false
    | _ :: t => containsSubL t needle

def containsSub (hay needle : String) : Bool := containsSubL hay.data needle.data

/-- Accumulator pass for `splitRuns`: `acc` is the current word-character run,
reversed. -/
def runsAux : List Char → List Char → List (List Char)
  | [], acc => if acc.isEmpty then [] else [acc.reverse]
  | c :: cs, acc =>
    if isWordCh c then runsAux cs (c :: acc)
    else if acc.isEmpty then runsAux cs [] else acc.reverse :: runsAux cs []

/-- Maximal runs of word characters (`\w+`), used to model `\b`-delimited
`re.findall` tokenisation. -/
def splitRuns (l : List Char) : List (List Char) := runsAux l []

/-- Model of `re.findall(r'\b[a-zA-Z]{n,}\b', text)`: maximal word-character
runs that are entirely alphabetic and have length at least `n`. -/
def tokensGe (n : Nat) (l : List Char) : List (List Char) :=
  (splitRuns l).filter (fun r => r.all isAsciiAlphaCh && decide (n ≤ r.length))

def countCh (c : Char) (l : List Char) : Nat := l.count c

/-- Accumulator pass for `pyDedup`: `seen` holds the elements already kept. -/
def dedupAux {α : Type} [DecidableEq α] : List α → List α → List α
  | [], _ => []
  | x :: xs, seen =>
    if x ∈ seen then dedupAux xs seen else x :: dedupAux xs (x :: seen)

/-- First-occurrence deduplication, the model of `list(set(xs))`. -/
def pyDedup {α : Type} [DecidableEq α] (l : List α) : List α := dedupAux l []

/-- Model of `' '.join(xs)`. -/
def joinSp : List String → String
  | [] => ""
  | [s] => s
  | s :: rest => s ++ " " ++ joinSp rest

/-! ### A small evaluator for the regular expressions used in the source

All quantified subpatterns in the source's regexes are either character
classes (`\d+`, `\s+`, `[^.!?]*`, ...) or a bounded group (`(\s+\w+){0,5}`),
so the following AST covers them.  `mats` returns the list of possible
remainders after a match starting at the head of the input, ordered by the
backtracking preference of Python's `re` (greedy quantifiers longest-first,
alternation left-first); the head of the list corresponds to the match
Python reports. -/

inductive RE where
  | eps : RE
  | cls (p : Char → Bool) : RE
  | seq (a b : RE) : RE
  | alt (a b : RE) : RE
  | starC (p : Char → Bool) : RE

/-- Remainders of greedily matching `p*` against `s`, longest match first. -/
def starRem (p : Char → Bool) : List Char → List (List Char)
  | [] => [[]]
  | c :: cs => (if p c then starRem p cs else []) ++ [c :: cs]

def mats : RE → List Char → List (List Char)
  | .eps, s => [s]
  | .cls _, [] => []
  | .cls p, c :: cs => if p c then [cs] else []
  | .seq a b, s => (mats a s).flatMap (fun r => mats b r)
  | .alt a b, s => mats a s ++ mats b s
  | .starC p, s => starRem p s

/-- A bounded greedy repetition `a{0,n}`, desugared into nested alternations
(more repetitions preferred, as in Python's greedy `{0,n}`). -/
def repR : Nat → RE → RE
  | 0, _ => .eps
  | n+1, a => .alt (.seq a (repR n a)) .eps

/-- Model of `re.match(pat, s) is not None` for a pattern without `$`. -/
def reMatch (r : RE) (s : List Char) : Bool := !(mats r s).isEmpty

/-- Model of `re.match(pat, s) is not None` for a `$`-terminated pattern. -/
def reMatchFull (r : RE) (s : List Char) : Bool := (mats r s).any (fun t => t.isEmpty)

/-- One scanning pass of `re.findall`: at each position try an anchored match,
on success record the matched text and continue after it, otherwise advance by
one character.  `fuel` is the remaining input length. -/
def findAllFrom (r : RE) : Nat → List Char → List (List Char)
  | 0, _ => []
  | _+1, [] => []
  | fuel+1, c :: cs =>
    match (mats r (c :: cs)).head? with
    | some rem =>
      let L := (c :: cs).length - rem.length
      if 0 < L then (c :: cs).take L :: findAllFrom r fuel ((c :: cs).drop L)
      else findAllFrom r fuel cs
    | none => findAllFrom r fuel cs

def findAll (r : RE) (s : List Char) : List (List Char) := findAllFrom r s.length s

def chC (c : Char) : RE := .cls (fun x => decide (x = c))

/-- Case-insensitive literal character, for `(?i)` patterns. -/
def chCi (c : Char) : RE := .cls (fun x => decide (toLowerCh x = c))

def plusC (p : Char → Bool) : RE := .seq (.cls p) (.starC p)

def optR (a : RE) : RE := .alt a .eps

def seqs (l : List RE) : RE := l.foldr RE.seq .eps

def strCi (s : String) : RE := seqs (s.data.map chCi)

/-! ### pdf_parser.py — language detection -/

/-- Unicode-range predicate of `text_patterns['latin']`: `[a-zA-ZÀ-ÿ]`. -/
def latinCh (c : Char) : Bool := isAsciiAlphaCh c || (decide (192 ≤ c.toNat) && decide (c.toNat ≤ 255))

/-- `[а-яё]` with `re.IGNORECASE`. -/
def cyrillicCh (c : Char) : Bool :=
  let l := (toLowerCh c).toNat
  (decide (1072 ≤ l) && decide (l ≤ 1103)) || decide (l = 1105)

def arabicCh (c : Char) : Bool := decide (0x0600 ≤ c.toNat) && decide (c.toNat ≤ 0x06FF)

def chineseCh (c : Char) : Bool := decide (0x4e00 ≤ c.toNat) && decide (c.toNat ≤ 0x9fff)

def japaneseCh (c : Char) : Bool :=
  (decide (0x3040 ≤ c.toNat) && decide (c.toNat ≤ 0x309f)) ||
  (decide (0x30a0 ≤ c.toNat) && decide (c.toNat ≤ 0x30ff))

def koreanCh (c : Char) : Bool := decide (0xac00 ≤ c.toNat) && decide (c.toNat ≤ 0xd7af)

def hindiCh (c : Char) : Bool := decide (0x0900 ≤ c.toNat) && decide (c.toNat ≤ 0x097F)

def thaiCh (c : Char) : Bool := decide (0x0e00 ≤ c.toNat) && decide (c.toNat ≤ 0x0e7f)

/-- The Vietnamese diacritic character class, with `re.IGNORECASE` modelled by
lowering the candidate character first. -/
def vietnameseCh (c : Char) : Bool :=
  "àáảãạăắằẳẵặâấầẩẫậèéẻẽẹêếềểễệìíỉĩịòóỏõọôốồổỗộơớờởỡợùúủũụưứừửữựỳýỷỹỵđ".data.contains (toLowerCh c)

/-- `self.text_patterns`, in dict insertion order. -/
def text_patterns : List (String × (Char → Bool)) :=
  [("latin", latinCh), ("cyrillic", cyrillicCh), ("arabic", arabicCh), ("chinese", chineseCh),
   ("japanese", japaneseCh), ("korean", koreanCh), ("hindi", hindiCh), ("thai", thaiCh),
   ("vietnamese", vietnameseCh)]

/-- `self.stopwords`, in dict insertion order.  Python stores these as sets;
they are modelled as duplicate-free lists (`'et'` is listed twice in the French
source literal but a set keeps one copy). -/
def stopwords : List (String × List String) :=
  [("english", ["the", "and", "or", "but", "in", "on", "at", "to", "for", "of", "with", "by"]),
   ("spanish", ["el", "la", "de", "que", "y", "a", "en", "un", "es", "se", "no", "te"]),
   ("french", ["le", "de", "et", "à", "un", "il", "être", "en", "avoir", "que", "pour"]),
   ("german", ["der", "die", "und", "in", "den", "von", "zu", "das", "mit", "sich", "des", "auf"]),
   ("italian", ["il", "di", "che", "e", "la", "per", "un", "in", "con", "non", "da", "su"]),
   ("portuguese", ["o", "de", "a", "que", "e", "do", "da", "em", "um", "para", "é", "com"]),
   ("russian", ["в", "и", "не", "на", "я", "быть", "тот", "а", "за", "к", "до", "из"]),
   ("arabic", ["في", "من", "إلى", "على", "هذا", "التي", "كان", "لم", "قد", "كل", "ما", "أن"]),
   ("chinese", ["的", "了", "和", "是", "就", "都", "而", "及", "与", "则", "等", "在"]),
   ("japanese", ["の", "に", "は", "を", "た", "が", "で", "て", "と", "し", "れ", "さ"]),
   ("korean", ["이", "가", "은", "는", "을", "를", "의", "에", "로", "와", "과", "도"]),
   ("hindi", ["का", "एक", "की", "को", "है", "में", "से", "के", "पर", "और", "या", "हो"])]

/-- Number of stopwords of `ws` occurring (as substrings, like Python's
`word in text_lower`) in the lowered text. -/
def stopwordHits (ws : List String) (textLower : String) : Nat :=
  ws.countP (fun w => containsSubL textLower.data w.data)

/-- `PDFParser.detect_language`. -/
def detect_language (text : String) : List String :=
  let textLower := pyLower text
  let fromPatterns := text_patterns.filterMap
    (fun lp => if text.data.any lp.2 then some lp.1 else none)
  let fromStops := stopwords.filterMap
    (fun ls => if 2 ≤ stopwordHits ls.2 textLower then some ls.1 else none)
  let detected := fromPatterns ++ fromStops
  if detected = [] then ["english"] else pyDedup detected

/-! ### section_extractor.py — data model -/

structure Subsection where
  content : String
  summary : String
  references : List String
  key_terms : List String
  relevance_score : Option ℝ := none

structure Section where
  title : String
  page : Nat
  level : Nat
  content : String
  subsections : List Subsection
  languages : List String
  relevance_score : Option ℝ := none
  importance_rank : Option Nat := none

structure Block where
  text : String
  page : Nat
  font_size : ℚ
  font_flags : Nat
  languages : Option (List String) := none

structure PageData where
  blocks : List Block

structure DocumentData where
  pages : List PageData
  detected_languages : Option (List String) := none

/-! ### section_extractor.py — heading detection -/

def isRomanCh (c : Char) : Bool := decide (c = 'I') || decide (c = 'V') || decide (c = 'X')

/-- `^\d+\.?\d*\.?\s+\w+` -/
def pat_numbered : RE :=
  seqs [plusC isDigitCh, optR (chC '.'), .starC isDigitCh, optR (chC '.'),
        plusC isSpaceCh, plusC isWordCh]

/-- `^[IVX]+\.?\s+\w+` -/
def pat_roman : RE :=
  seqs [plusC isRomanCh, optR (chC '.'), plusC isSpaceCh, plusC isWordCh]

/-- `^[A-Z]\.?\s+\w+` -/
def pat_letters : RE :=
  seqs [.cls isUpperCh, optR (chC '.'), plusC isSpaceCh, plusC isWordCh]

/-- `^[A-Z][^.!?]*:$` (end-anchored). -/
def pat_title_colon : RE :=
  seqs [.cls isUpperCh,
        .starC (fun c => !(decide (c = '.') || decide (c = '!') || decide (c = '?'))),
        chC ':']

def capsSpaceCh (c : Char) : Bool := isUpperCh c || isSpaceCh c

/-- `^[A-Z\s]{3,}$` (end-anchored). -/
def pat_all_caps : RE :=
  seqs [.cls capsSpaceCh, .cls capsSpaceCh, .cls capsSpaceCh, .starC capsSpaceCh]

/-- `^\w+(\s+\w+){0,5}$` (end-anchored). -/
def pat_bold_short : RE :=
  .seq (plusC isWordCh) (repR 5 (.seq (plusC isSpaceCh) (plusC isWordCh)))

/-- The disjunction of `self.heading_patterns` checks in `_is_quality_heading`. -/
def matchesHeadingPattern (l : List Char) : Bool :=
  reMatch pat_numbered l || reMatch pat_roman l || reMatch pat_letters l ||
  reMatchFull pat_title_colon l || reMatchFull pat_all_caps l || reMatchFull pat_bold_short l

/-- `self.section_keywords`. -/
def section_keywords : List (String × List String) :=
  [("english", ["introduction", "abstract", "summary", "conclusion", "methodology", "results",
                "discussion", "background", "literature", "analysis", "findings", "references"]),
   ("spanish", ["introducción", "resumen", "conclusión", "metodología", "resultados",
                "discusión", "antecedentes", "análisis", "referencias"]),
   ("french", ["introduction", "résumé", "conclusion", "méthodologie", "résultats",
               "discussion", "contexte", "analyse", "références"]),
   ("german", ["einleitung", "zusammenfassung", "schlussfolgerung", "methodik", "ergebnisse",
               "diskussion", "hintergrund", "analyse", "literatur"]),
   ("italian", ["introduzione", "riassunto", "conclusione", "metodologia", "risultati",
                "discussione", "contesto", "analisi", "riferimenti"]),
   ("portuguese", ["introdução", "resumo", "conclusão", "metodologia", "resultados",
                   "discussão", "contexto", "análise", "referências"])]

/-- The keyword-lexicon signal of `_is_quality_heading`: some detected language
has a section keyword occurring in the lowered text while the text has at most
8 whitespace-separated words. -/
def keywordHeadingSignal (text : String) (languages : List String) : Bool :=
  let textLower := pyLower text
  languages.any (fun lang =>
    match section_keywords.find? (fun kv => kv.1 == lang) with
    | some kv => kv.2.any (fun kw =>
        containsSubL textLower.data kw.data && decide ((pySplitWS text.data).length ≤ 8))
    | none => false)

/-! Rational arithmetic written through `Rat.divInt` so that the kernel can
evaluate it on concrete inputs; `qAdd_eq`, `qMul_eq` and `qDiv_eq` below prove
these are ordinary `ℚ` addition, multiplication and division. -/

def qAdd (a b : ℚ) : ℚ :=
  Rat.divInt (a.num * (b.den : ℤ) + b.num * (a.den : ℤ)) ((a.den : ℤ) * (b.den : ℤ))

def qMul (a b : ℚ) : ℚ := Rat.divInt (a.num * b.num) ((a.den : ℤ) * (b.den : ℤ))

def qDiv (a b : ℚ) : ℚ := Rat.divInt (a.num * (b.den : ℤ)) ((a.den : ℤ) * b.num)

def qSum (l : List ℚ) : ℚ := l.foldl qAdd 0

theorem qMul_eq (a b : ℚ) : qMul a b = a * b := by
  rw [qMul]
  conv_rhs => rw [← Rat.num_divInt_den a, ← Rat.num_divInt_den b]
  rw [Rat.divInt_mul_divInt']

theorem qDiv_eq (a b : ℚ) : qDiv a b = a / b := by
  rw [qDiv, div_eq_mul_inv, Rat.inv_def']
  conv_rhs => rw [← Rat.num_divInt_den a]
  rw [Rat.divInt_mul_divInt']

theorem qAdd_eq (a b : ℚ) : qAdd a b = a + b := by
  have ha : ((a.den : ℚ)) ≠ 0 := Nat.cast_ne_zero.mpr a.den_nz
  have hb : ((b.den : ℚ)) ≠ 0 := Nat.cast_ne_zero.mpr b.den_nz
  rw [qAdd, Rat.divInt_eq_div]
  push_cast
  conv_rhs => rw [← Rat.num_div_den a, ← Rat.num_div_den b]
  rw [div_add_div _ _ ha hb]
  ring_nf

theorem qSum_eq (l : List ℚ) : qSum l = l.sum := by
  have h : ∀ (init : ℚ), l.foldl qAdd init = init + l.sum := by
    induction l with
    | nil => intro init; simp [List.sum_nil]
    | cons x xs ih =>
      intro init
      simp only [List.foldl_cons, List.sum_cons, ih, qAdd_eq]
      ring
  simpa using h 0

def avgFontSize (blocks : List Block) : ℚ :=
  qDiv (qSum (blocks.map (fun b => b.font_size))) (blocks.length)

theorem avgFontSize_eq (blocks : List Block) :
    avgFontSize blocks = (blocks.map (fun b => b.font_size)).sum / blocks.length := by
  rw [avgFontSize, qDiv_eq, qSum_eq]

/-- `SectionExtractor._is_quality_heading`. -/
def is_quality_heading (block : Block) (all_blocks : List Block) (languages : List String) :
    Bool :=
  let text := pyStrip block.text
  if !(decide (3 ≤ text.length) && decide (text.length ≤ 200)) then false
  else if matchesHeadingPattern text.data then true
  else if keywordHeadingSignal text languages then true
  else if !all_blocks.isEmpty then
    if decide (qMul (avgFontSize all_blocks) (Rat.divInt 13 10) < block.font_size) then true
    else decide (block.font_flags &&& 16 ≠ 0) && decide ((pySplitWS text.data).length ≤ 10)
  else false

theorem font_signal_iff (block : Block) (all_blocks : List Block) :
    (qMul (avgFontSize all_blocks) (Rat.divInt 13 10) < block.font_size) ↔
      (avgFontSize all_blocks * (13 / 10) < block.font_size) := by
  rw [qMul_eq, Rat.divInt_eq_div]
  norm_num

/-- Whitespace-collapsing pass; the flag records whether the previous
character was whitespace (already emitted as one space). -/
def collapseWSAux : Bool → List Char → List Char
  | _, [] => []
  | inRun, c :: cs =>
    if isSpaceCh c then
      if inRun then collapseWSAux true cs else ' ' :: collapseWSAux true cs
    else c :: collapseWSAux false cs

/-- Collapse whitespace runs to single spaces (`re.sub(r'\s+', ' ', _)`). -/
def collapseWS (l : List Char) : List Char := collapseWSAux false l

/-- `re.sub(r'[^\w\s:.-]$', '', _)`: drop a final character that is neither a
word character, whitespace, `:`, `.` nor `-`. -/
def stripTrailingPunct (l : List Char) : List Char :=
  match l.getLast? with
  | none => l
  | some c =>
    if isWordCh c || isSpaceCh c || decide (c = ':') || decide (c = '.') || decide (c = '-')
    then l else l.dropLast

/-- `SectionExtractor._clean_heading_text`. -/
def clean_heading_text (text : String) : String :=
  ⟨(stripTrailingPunct (collapseWS (pyStripL text.data))).take 150⟩

/-- `^\d+\.?\s+` -/
def pat_level1 : RE := seqs [plusC isDigitCh, optR (chC '.'), plusC isSpaceCh]

/-- `^\d+\.\d+\.?\s+` -/
def pat_level2 : RE :=
  seqs [plusC isDigitCh, chC '.', plusC isDigitCh, optR (chC '.'), plusC isSpaceCh]

/-- `^\d+\.\d+\.\d+\.?\s+` -/
def pat_level3 : RE :=
  seqs [plusC isDigitCh, chC '.', plusC isDigitCh, chC '.', plusC isDigitCh,
        optR (chC '.'), plusC isSpaceCh]

/-- `SectionExtractor._determine_heading_level`. -/
def determine_heading_level (block : Block) (all_blocks : List Block) : Nat :=
  let text := pyStrip block.text
  if reMatch pat_level1 text.data then 1
  else if reMatch pat_level2 text.data then 2
  else if reMatch pat_level3 text.data then 3
  else if !all_blocks.isEmpty then
    let sizes := (pyDedup (all_blocks.map (fun b => b.font_size))).insertionSort
      (fun a b => decide (b ≤ a))
    match (sizes.take 3).findIdx? (fun s => s == block.font_size) with
    | some i => i + 1
    | none => 2
  else 2

/-! ### section_extractor.py — subsection extraction -/

/-- The multilingual sentence-terminator class `[.!?。！？।۔]`. -/
def sentenceEndCh (c : Char) : Bool :=
  decide (c = '.') || decide (c = '!') || decide (c = '?') || decide (c = '。') ||
  decide (c = '！') || decide (c = '？') || decide (c = '।') || decide (c = '۔')

/-- `re.split` on a single-character class: split at every terminator, keeping
empty pieces. -/
def splitOnPred (p : Char → Bool) : List Char → List (List Char)
  | [] => [[]]
  | c :: cs =>
    match splitOnPred p cs with
    | [] => if p c then [[], []] else [[c]]
    | h :: t => if p c then [] :: h :: t else (c :: h) :: t

/-- `SectionExtractor._split_into_sentences` (the `languages` argument is
unused in the source as well). -/
def split_into_sentences (text : String) (languages : List String) : List String :=
  let _ := languages
  (splitOnPred sentenceEndCh text.data).filterMap (fun piece =>
    let s := pyStripL piece
    if 10 < s.length then some (⟨s⟩ : String) else none)

/-- `SectionExtractor._create_quality_summary`. -/
def create_quality_summary (sentences : List String) : String :=
  match sentences with
  | [] => ""
  | [s] => pyTake 200 s ++ "..."
  | s0 :: r0 :: rest =>
    let longest := rest.foldl (fun acc x => if acc.length < x.length then x else acc) r0
    let summary := if longest ≠ s0 then s0 ++ " " ++ longest else s0
    if 300 < summary.length then pyTake 300 summary ++ "..." else summary

/-- `(?i)figure\s+\d+(?:\.\d+)?` and friends. -/
def decimalNum : RE := .seq (plusC isDigitCh) (optR (.seq (chC '.') (plusC isDigitCh)))

def pat_figure : RE := .seq (strCi "figure") (.seq (plusC isSpaceCh) decimalNum)

def pat_table : RE := .seq (strCi "table") (.seq (plusC isSpaceCh) decimalNum)

def pat_section_kw : RE := .seq (strCi "section") (.seq (plusC isSpaceCh) decimalNum)

def pat_chapter : RE := .seq (strCi "chapter") (.seq (plusC isSpaceCh) (plusC isDigitCh))

def pat_equation : RE := .seq (strCi "equation") (.seq (plusC isSpaceCh) (plusC isDigitCh))

/-- `\[\d+\]` -/
def pat_bracket_cite : RE := seqs [chC '[', plusC isDigitCh, chC ']']

/-- `\(\d+\)` -/
def pat_paren_cite : RE := seqs [chC '(', plusC isDigitCh, chC ')']

def ref_patterns : List RE :=
  [pat_figure, pat_table, pat_section_kw, pat_chapter, pat_equation,
   pat_bracket_cite, pat_paren_cite]

/-- `SectionExtractor._extract_references`. -/
def extract_references (text : String) : List String :=
  let refs := ref_patterns.flatMap (fun p =>
    ((findAll p text.data).map (fun m => (⟨m⟩ : String))).take 5)
  (pyDedup refs).take 8

/-- The stopword set used by `_extract_key_terms` (the same literal set is
added once for any of the six recognised languages). -/
def key_term_stops : List String :=
  ["this", "that", "with", "from", "they", "were", "been", "have", "will", "said"]

def key_term_langs : List String :=
  ["english", "spanish", "french", "german", "italian", "portuguese"]

/-- Occurrence counts in first-occurrence order — the model of
`collections.Counter` built from a list. -/
def counterOf (l : List String) : List (String × Nat) :=
  (pyDedup l).map (fun w => (w, l.count w))

/-- `SectionExtractor._extract_key_terms`: frequency-ranked alphabetic tokens
(length ≥ 4) after stopword removal, top 10, keeping only counts above 1.
`Counter.most_common` is stable on ties, hence the stable descending sort. -/
def extract_key_terms (text : String) (languages : List String) : List String :=
  let words := (tokensGe 4 (pyLower text).data).map (fun l => (⟨l⟩ : String))
  let stops := if languages.any (fun l => key_term_langs.contains l) then key_term_stops else []
  let filtered := words.filter (fun w => !stops.contains w)
  let ranked := (counterOf filtered).insertionSort (fun a b => decide (b.2 ≤ a.2))
  (ranked.take 10).filterMap (fun wc => if 1 < wc.2 then some wc.1 else none)

/-- Fuel-indexed body of `chunksOf`; the fuel (initially the list length)
only bounds the recursion depth. -/
def chunksOfAux {α : Type} (n : Nat) : Nat → List α → List (List α)
  | 0, _ => []
  | _+1, [] => []
  | fuel+1, x :: xs => (x :: xs).take n :: chunksOfAux n fuel ((x :: xs).drop n)

/-- `sentences[i:i+n]` chunking from `range(0, len(sentences), n)`. -/
def chunksOf {α : Type} (n : Nat) (l : List α) : List (List α) :=
  chunksOfAux n l.length l

def mkSubsection (languages : List String) (chunk : List String) : Subsection :=
  let txt := joinSp chunk
  { content := pyTake 800 txt,
    summary := create_quality_summary chunk,
    references := extract_references txt,
    key_terms := extract_key_terms txt languages }

/-- The chunk loop of `_extract_quality_subsections`: append a subsection for
each sufficiently long chunk, stopping as soon as 3 have been collected. -/
def buildSubsections (languages : List String) :
    List (List String) → List Subsection → List Subsection
  | [], acc => acc
  | chunk :: rest, acc =>
    if !chunk.isEmpty && decide (50 < (joinSp chunk).length) then
      let acc2 := acc ++ [mkSubsection languages chunk]
      if 3 ≤ acc2.length then acc2 else buildSubsections languages rest acc2
    else buildSubsections languages rest acc

/-- `SectionExtractor._extract_quality_subsections`. -/
def extract_quality_subsections (content : String) (languages : List String) :
    List Subsection :=
  if (pyStrip content).length < 100 then []
  else
    let sentences := split_into_sentences content languages
    if sentences.length ≤ 3 then
      [{ content := pyTake 800 (pyStrip content),
         summary := create_quality_summary sentences,
         references := extract_references content,
         key_terms := extract_key_terms content languages }]
    else
      let chunkSize := max 3 (sentences.length / 4)
      buildSubsections languages (chunksOf chunkSize sentences) []

/-! ### section_extractor.py — section segmentation -/

/-- `SectionExtractor._is_quality_section`. -/
def is_quality_section (s : Section) : Bool :=
  if (pyStrip s.content).length < 50 then false
  else
    let title := pyStrip s.title
    if title.length < 3 || (pyLower title = "document content" ∨ pyLower title = "untitled")
    then decide (200 < (pyStrip s.content).length)
    else !s.subsections.isEmpty || decide (3 < countCh '.' s.content.data + 1)

/-- Close the open section: emit it (with freshly computed subsections) if its
stripped content is longer than 50 characters, otherwise drop it. -/
def closeSection (langs : List String) (sections : List Section) (cur : Section) :
    List Section :=
  if 50 < (pyStrip cur.content).length then
    sections ++ [{ cur with subsections := extract_quality_subsections cur.content langs }]
  else sections

/-- One iteration of the block loop of `extract_sections`.  The state is the
emitted-sections list together with the currently open section. -/
def stepBlock (docLangs : List String) (pageBlocks : List Block)
    (st : List Section × Option Section) (b : Block) : List Section × Option Section :=
  let text := pyStrip b.text
  if text.length < 3 then st
  else if is_quality_heading b pageBlocks docLangs then
    let sections :=
      match st.2 with
      | some cur => closeSection docLangs st.1 cur
      | none => st.1
    (sections, some
      { title := clean_heading_text text,
        page := b.page,
        level := determine_heading_level b pageBlocks,
        content := "",
        subsections := [],
        languages := b.languages.getD docLangs })
  else
    match st.2 with
    | some cur => (st.1, some { cur with content := cur.content ++ text ++ " " })
    | none =>
      (st.1, some
        { title := "Document Content",
          page := b.page,
          level := 1,
          content := text ++ " ",
          subsections := [],
          languages := b.languages.getD docLangs })

/-- `SectionExtractor.extract_sections`. -/
def extract_sections (doc : DocumentData) : List Section :=
  if doc.pages.isEmpty then []
  else
    let docLangs := doc.detected_languages.getD ["english"]
    let st := doc.pages.foldl
      (fun st page => page.blocks.foldl (stepBlock docLangs page.blocks) st)
      (([], none) : List Section × Option Section)
    let sections :=
      match st.2 with
      | some cur => closeSection cur.languages st.1 cur
      | none => st.1
    sections.filter is_quality_section

/-! ### persona_matcher.py — keyword extraction and scoring -/

/-- The stopword set of `_extract_dynamic_keywords`. -/
def matcher_stopwords : List String :=
  ["the", "and", "for", "with", "this", "that", "who", "what", "where",
   "when", "why", "how", "are", "was", "were", "been", "have", "has",
   "will", "would", "could", "should", "can", "may", "must", "need"]

/-- Model of `str.endswith`. -/
def pyEndsWith (s suffix : String) : Bool :=
  suffix.data.reverse.isPrefixOf s.data.reverse

/-- Model of `s[:-n]` for `n ≤ len(s)`. -/
def pyDropRight (n : Nat) (s : String) : String :=
  ⟨s.data.take (s.data.length - n)⟩

/-- The stemming step: strip a trailing `ing`, `ed` or `s`. -/
def stemOf (k : String) : Option String :=
  if pyEndsWith k "ing" then some (pyDropRight 3 k)
  else if pyEndsWith k "ed" then some (pyDropRight 2 k)
  else if pyEndsWith k "s" then some (pyDropRight 1 k)
  else none

/-- `PersonaMatcher._extract_dynamic_keywords`.  The final `list(set(...))` is
modelled as first-occurrence deduplication; every property proved below is
insensitive to the order of this list. -/
def extract_dynamic_keywords (persona job : String) : List String :=
  let combined := pyLower (persona ++ " " ++ job)
  let words := (tokensGe 3 combined.data).map (fun l => (⟨l⟩ : String))
  let keywords := words.filter (fun w => !matcher_stopwords.contains w && decide (2 < w.length))
  pyDedup (keywords ++ keywords.filterMap stemOf)

/-- Tokenised words of `title + " " + content`, lowered —
`re.findall(r'\b[a-zA-Z]{3,}\b', text)` in `_calculate_keyword_relevance`. -/
def sectionWords (sec : Section) : List (List Char) :=
  tokensGe 3 (pyLower (sec.title ++ " " ++ sec.content)).data

/-- The generous two-way partial match `keyword in word or word in keyword`. -/
def partialMatch (kw w : List Char) : Bool := containsSubL w kw || containsSubL kw w

/-- The raw lexical sum of `_calculate_keyword_relevance`, before length
normalisation (all weights are dyadic, hence exact). -/
def raw_keyword_score (sec : Section) (keywords : List String) : ℚ :=
  let words := sectionWords sec
  (keywords.map (fun kw =>
    (words.count kw.data : ℚ) * 2 +
    (words.countP (fun w => partialMatch kw.data w) : ℚ) * (1/2) +
    (if containsSubL (pyLower sec.title).data kw.data then 3 else 0))).sum

/-- `PersonaMatcher._calculate_keyword_relevance`: the raw sum divided by
`math.log(wordCount + 1)` whenever the candidate has at least one word. -/
noncomputable def calculate_keyword_relevance (sec : Section) (keywords : List String) : ℝ :=
  let n := (sectionWords sec).length
  if 0 < n then (raw_keyword_score sec keywords : ℝ) / Real.log (n + 1)
  else (raw_keyword_score sec keywords : ℝ)

def subsectionWords (sub : Subsection) : List (List Char) :=
  tokensGe 3 (pyLower sub.content).data

/-- The raw lexical sum of `_calculate_subsection_relevance` (weights 1.5 and
0.3, no title bonus). -/
def raw_subsection_score (sub : Subsection) (keywords : List String) : ℚ :=
  let words := subsectionWords sub
  (keywords.map (fun kw =>
    (words.count kw.data : ℚ) * (3/2) +
    (words.countP (fun w => partialMatch kw.data w) : ℚ) * (3/10))).sum

/-- `PersonaMatcher._calculate_subsection_relevance`. -/
noncomputable def calculate_subsection_relevance (sub : Subsection) (keywords : List String) :
    ℝ :=
  let n := (subsectionWords sub).length
  if 0 < n then (raw_subsection_score sub keywords : ℝ) / Real.log (n + 1)
  else (raw_subsection_score sub keywords : ℝ)

/-- The injected embedding capability: `model.encode`, which may raise. -/
abbrev Enc := String → Except Unit (List ℝ)

def dotProd (a b : List ℝ) : ℝ := (a.zipWith (fun x y => x * y) b).sum

noncomputable def l2norm (a : List ℝ) : ℝ := Real.sqrt ((a.map (fun x => x * x)).sum)

/-- `PersonaMatcher._calculate_semantic_similarity` for a present model: any
raised error (modelled by `Except.error`, including numpy's shape mismatch)
is swallowed by the bare `except` and yields `0.0`; a zero denominator gives
`nan`, and `max(0.0, nan)` is `0.0` in CPython. -/
noncomputable def calculate_semantic_similarity (enc : Enc) (sec : Section)
    (persona job : String) : ℝ :=
  match enc (persona ++ " " ++ job) with
  | .error _ => 0
  | .ok q =>
    match enc (sec.title ++ " " ++ pyTake 500 sec.content) with
    | .error _ => 0
    | .ok s =>
      if q.length = s.length then
        let denom := l2norm q * l2norm s
        if denom = 0 then 0 else max 0 (dotProd q s / denom)
      else 0

/-! ### persona_matcher.py — ranking -/

def subKey (sub : Subsection) : ℝ := sub.relevance_score.getD 0

def secKey (s : Section) : ℝ := s.relevance_score.getD 0

/-- The stable descending comparison used by
`sorted(..., key=lambda x: x["relevance_score"], reverse=True)`.  Every
element carries a score at the point of sorting, so reading it with a
default is faithful. -/
def subDesc (a b : Subsection) : Prop := subKey b ≤ subKey a

def secDesc (a b : Section) : Prop := secKey b ≤ secKey a

noncomputable instance : DecidableRel subDesc := fun _ _ => Real.decidableLE _ _

noncomputable instance : DecidableRel secDesc := fun _ _ => Real.decidableLE _ _

/-- Score, sort (stable, descending) and truncate a section's subsections. -/
noncomputable def scoreSubsections (kws : List String) (subs : List Subsection) :
    List Subsection :=
  ((subs.map (fun sub =>
    { sub with relevance_score := some (calculate_subsection_relevance sub kws) }))
    |>.insertionSort subDesc).take 3

/-- The relevance score assigned to a section: the 0.7/0.3 blend when the
model is present, lexical-only otherwise. -/
noncomputable def sectionRelevance (model : Option Enc) (kws : List String)
    (persona job : String) (sec : Section) : ℝ :=
  match model with
  | some enc =>
    (7/10) * calculate_semantic_similarity enc sec persona job +
      (3/10) * calculate_keyword_relevance sec kws
  | none => calculate_keyword_relevance sec kws

/-- The per-section body of the loop in `match_sections`: blended or
lexical-only relevance on a copy, plus scored/sorted/truncated subsections. -/
noncomputable def scoreSection (model : Option Enc) (kws : List String)
    (persona job : String) (sec : Section) : Section :=
  { sec with relevance_score := some (sectionRelevance model kws persona job sec),
             subsections := scoreSubsections kws sec.subsections }

/-- `importance_rank = i + 1` assignment over the surviving sequence. -/
def rankAssign (l : List Section) : List Section :=
  l.mapIdx (fun i s => { s with importance_rank := some (i + 1) })

/-- `PersonaMatcher.match_sections`. -/
noncomputable def match_sections (model : Option Enc) (sections : List Section)
    (persona job : String) : List Section :=
  if sections.isEmpty then []
  else
    let kws := extract_dynamic_keywords persona job
    rankAssign (((sections.map (scoreSection model kws persona job)).insertionSort
      secDesc).take 15)

/-! ### A store-passing model of `match_sections` for the mutation claim

Python dicts are mutable objects.  To reason about what `match_sections`
writes, the section and subsection dicts are placed in an explicit heap of
insertion-ordered association lists; `dict.copy()` allocates a fresh address
and item assignment updates one address.  The two scoring functions are
parameters: in the source they only read the candidate dict, never write. -/

inductive PyVal (S : Type) where
  | str (s : String)
  | int (n : ℤ)
  | score (x : S)
  | objs (l : List Nat)
  | strs (l : List String)
deriving DecidableEq

/-- One Python dict: keys with values, in insertion order. -/
abbrev PyDict (S : Type) : Type := List (String × PyVal S)

/-- Dict lookup. -/
def dGet {S : Type} (d : PyDict S) (k : String) : Option (PyVal S) :=
  (d.find? (fun kv => kv.1 == k)).map (fun kv => kv.2)

/-- Dict item assignment: overwrite in place if the key exists (Python keeps
the original key position), otherwise append. -/
def dSet {S : Type} (d : PyDict S) (k : String) (v : PyVal S) : PyDict S :=
  if d.any (fun kv => kv.1 == k) then
    d.map (fun kv => if kv.1 == k then (k, v) else kv)
  else d ++ [(k, v)]

structure PyHeap (S : Type) where
  mem : Nat → PyDict S
  next : Nat

/-- `dict.copy()`: allocate a fresh address holding the same items. -/
def halloc {S : Type} (h : PyHeap S) (d : PyDict S) : Nat × PyHeap S :=
  (h.next, ⟨fun a => if a = h.next then d else h.mem a, h.next + 1⟩)

/-- `obj[k] = v` at address `a`. -/
def hset {S : Type} (h : PyHeap S) (a : Nat) (k : String) (v : PyVal S) : PyHeap S :=
  ⟨fun x => if x = a then dSet (h.mem x) k v else h.mem x, h.next⟩

/-- Read the sort key `x["relevance_score"]` of the object at `a`. -/
def scoreAt {S : Type} [Inhabited S] (h : PyHeap S) (a : Nat) : S :=
  match dGet (h.mem a) "relevance_score" with
  | some (.score x) => x
  | _ => default

/-- Subsection loop of `match_sections`: copy each subsection dict and write
its score to the copy. -/
def scoreSubsCopies {S : Type} (g : PyDict S → S) (subIds : List Nat) (h : PyHeap S) :
    List Nat × PyHeap S :=
  subIds.foldl
    (fun acc sid =>
      let sd := acc.2.mem sid
      let alloc := halloc acc.2 sd
      (acc.1 ++ [alloc.1], hset alloc.2 alloc.1 "relevance_score" (.score (g sd))))
    ([], h)

/-- Per-section body: score the original, copy it, write the score to the
copy, process the subsection list, and install the sorted truncated copy ids
on the copy. -/
def processSectionH {S : Type} [Inhabited S] [LinearOrder S] (f g : PyDict S → S)
    (h : PyHeap S) (sid : Nat) : Nat × PyHeap S :=
  let d := h.mem sid
  let rel := f d
  let alloc := halloc h d
  let cid := alloc.1
  let h1 := hset alloc.2 cid "relevance_score" (.score rel)
  let subIds := match dGet d "subsections" with
    | some (.objs l) => l
    | _ => []
  let subs := scoreSubsCopies g subIds h1
  let h2 := subs.2
  let sorted := ((subs.1.insertionSort (fun a b => scoreAt h2 b ≤ scoreAt h2 a)).take 3)
  (cid, hset h2 cid "subsections" (.objs sorted))

/-- Heap model of `PersonaMatcher.match_sections`: returns the ids of the
ranked section copies and the final heap. -/
def match_sections_heap {S : Type} [Inhabited S] [LinearOrder S] (f g : PyDict S → S)
    (sectionIds : List Nat) (h : PyHeap S) : List Nat × PyHeap S :=
  if sectionIds.isEmpty then ([], h)
  else
    let scored := sectionIds.foldl
      (fun acc sid =>
        let pr := processSectionH f g acc.2 sid
        (acc.1 ++ [pr.1], pr.2))
      (([], h) : List Nat × PyHeap S)
    let h1 := scored.2
    let top := ((scored.1.insertionSort (fun a b => scoreAt h1 b ≤ scoreAt h1 a)).take 15)
    let h2 := top.foldlIdx (fun i hh a => hset hh a "importance_rank" (.int (i + 1))) h1
    (top, h2)

/-! ### Helper lemmas about the list utilities -/

theorem mem_dedupAux {α : Type} [DecidableEq α] {a : α} :
    ∀ (l seen : List α), a ∈ dedupAux l seen ↔ (a ∈ l ∧ a ∉ seen) := by
  intro l
  induction l with
  | nil => intro seen; simp [dedupAux]
  | cons x xs ih =>
    intro seen
    by_cases hx : x ∈ seen
    · rw [dedupAux, if_pos hx, ih]
      constructor
      · rintro ⟨hxs, hns⟩; exact ⟨List.mem_cons_of_mem _ hxs, hns⟩
      · rintro ⟨hmem, hns⟩
        rcases List.mem_cons.mp hmem with rfl | hxs
        · exact absurd hx hns
        · exact ⟨hxs, hns⟩
    · rw [dedupAux, if_neg hx]
      simp only [List.mem_cons, ih, List.mem_cons]
      constructor
      · rintro (rfl | ⟨hxs, hns⟩)
        · exact ⟨Or.inl rfl, hx⟩
        · exact ⟨Or.inr hxs, fun hsn => hns (Or.inr hsn)⟩
      · rintro ⟨rfl | hxs, hns⟩
        · exact Or.inl rfl
        · by_cases hax : a = x
          · exact Or.inl hax
          · exact Or.inr ⟨hxs, fun hmem => hmem.elim hax hns⟩

theorem mem_pyDedup {α : Type} [DecidableEq α] {a : α} {l : List α} :
    a ∈ pyDedup l ↔ a ∈ l := by
  rw [pyDedup, mem_dedupAux]
  simp

theorem pyDedup_eq_nil {α : Type} [DecidableEq α] {l : List α} :
    pyDedup l = [] ↔ l = [] := by
  cases l with
  | nil => simp [pyDedup, dedupAux]
  | cons x xs => simp [pyDedup, dedupAux]

/-! ### C9 — the language-detection contract -/

/-- C9: `detect_language` always returns a non-empty list of language tags;
if no Unicode-range pattern matches any character and no language's stopword
set has at least two hits, the result is exactly `["english"]`; and every
language whose stopword set has at least two case-insensitive substring hits
in the text is included in the result. -/
theorem detect_language_contract (text : String) :
    detect_language text ≠ [] ∧
    ((∀ lp ∈ text_patterns, text.data.any lp.2 = false) →
      (∀ ls ∈ stopwords, stopwordHits ls.2 (pyLower text) < 2) →
      detect_language text = ["english"]) ∧
    (∀ lang ws, (lang, ws) ∈ stopwords → 2 ≤ stopwordHits ws (pyLower text) →
      lang ∈ detect_language text) := by
  refine ⟨?_, ?_, ?_⟩
  · unfold detect_language
    by_cases hd :
        (text_patterns.filterMap
          (fun lp => if text.data.any lp.2 then some lp.1 else none)) ++
        (stopwords.filterMap
          (fun ls => if 2 ≤ stopwordHits ls.2 (pyLower text) then some ls.1 else none)) = []
    · simp only [hd, if_pos rfl]
      simp
    · simp only [if_neg hd]
      simpa [pyDedup_eq_nil] using hd
  · intro hpat hstop
    unfold detect_language
    have h1 : text_patterns.filterMap
        (fun lp => if text.data.any lp.2 then some lp.1 else none) = [] := by
      rw [List.filterMap_eq_nil]
      intro lp hlp
      simp [hpat lp hlp]
    have h2 : stopwords.filterMap
        (fun ls => if 2 ≤ stopwordHits ls.2 (pyLower text) then some ls.1 else none) = [] := by
      rw [List.filterMap_eq_nil]
      intro ls hls
      simp [Nat.not_le_of_lt (hstop ls hls)]
    simp only [h1, h2]
    rfl
  · intro lang ws hmem hhits
    unfold detect_language
    have hlang : lang ∈ stopwords.filterMap
        (fun ls => if 2 ≤ stopwordHits ls.2 (pyLower text) then some ls.1 else none) := by
      rw [List.mem_filterMap]
      exact ⟨(lang, ws), hmem, by simp [hhits]⟩
    have hne : (text_patterns.filterMap
          (fun lp => if text.data.any lp.2 then some lp.1 else none)) ++
        (stopwords.filterMap
          (fun ls => if 2 ≤ stopwordHits ls.2 (pyLower text) then some ls.1 else none)) ≠ [] := by
      intro h
      rcases List.append_eq_nil.mp h with ⟨-, h2⟩
      rw [h2] at hlang
      exact (List.not_mem_nil _) hlang
    simp only [if_neg hne]
    rw [mem_pyDedup]
    exact List.mem_append_right _ hlang

/-- Concrete instantiation of `detect_language_contract`: a digits-only text
yields the english default, and a text hitting at least two Portuguese
stopwords includes `portuguese`. -/
theorem detect_language_contract_witness :
    detect_language "1234 5678" = ["english"] ∧
    "portuguese" ∈ detect_language "o e a" :=
  ⟨(detect_language_contract "1234 5678").2.1 (by decide) (by decide),
   (detect_language_contract "o e a").2.2 "portuguese"
     ["o", "de", "a", "que", "e", "do", "da", "em", "um", "para", "é", "com"]
     (by decide) (by decide)⟩

/-! ### C7 — the font-size heading signal -/

/-- A block whose font size (13) exceeds 1.2× (but not 1.3×) the average font
size (10) of the supplied block set, with text that triggers no other heading
signal. -/
def blockC7 : Block := { text := "zzqq, xk.", page := 1, font_size := 13, font_flags := 0 }

def pageBlocksC7 : List Block := [{ text := "body", page := 1, font_size := 10, font_flags := 0 }]

/-- C7 (counterexample): `blockC7`'s stripped text has admissible length and
its font size exceeds 1.2× the average font size of `pageBlocksC7`, yet
`_is_quality_heading` returns `false` — the code's threshold is 1.3, not 1.2. -/
theorem is_quality_heading_font_1_2_counterexample :
    3 ≤ (pyStrip blockC7.text).length ∧ (pyStrip blockC7.text).length ≤ 200 ∧
    avgFontSize pageBlocksC7 * (12/10) < blockC7.font_size ∧
    is_quality_heading blockC7 pageBlocksC7 ["english"] = false := by
  refine ⟨by decide, by decide, ?_, by decide⟩
  have h : avgFontSize pageBlocksC7 = 10 := by decide
  rw [h, blockC7]
  norm_num

/-- C7 (amended): for a block of stripped length between 3 and 200 and a
non-empty supplied block set, `_is_quality_heading` returns `true` whenever
the block's font size exceeds 1.3× the average font size of the supplied
set (whatever the other signals say). -/
theorem is_quality_heading_font_signal (b : Block) (all_blocks : List Block)
    (langs : List String) (h3 : 3 ≤ (pyStrip b.text).length)
    (h200 : (pyStrip b.text).length ≤ 200) (hne : all_blocks ≠ [])
    (hfont : avgFontSize all_blocks * (13/10) < b.font_size) :
    is_quality_heading b all_blocks langs = true := by
  have hb : all_blocks.isEmpty = false := by
    simpa [List.isEmpty_iff] using hne
  have d1 : decide (3 ≤ (pyStrip b.text).length) = true := decide_eq_true h3
  have d2 : decide ((pyStrip b.text).length ≤ 200) = true := decide_eq_true h200
  have d3 : decide (qMul (avgFontSize all_blocks) (Rat.divInt 13 10) < b.font_size) = true :=
    decide_eq_true ((font_signal_iff b all_blocks).mpr hfont)
  unfold is_quality_heading
  simp only [d1, d2, d3, hb, Bool.and_self, Bool.not_true, Bool.false_eq_true, if_false,
    Bool.not_false, if_true]
  split
  · rfl
  · split
    · rfl
    · rfl

/-- Concrete instantiation of `is_quality_heading_font_signal`: font 14
against a page average of 10. -/
theorem is_quality_heading_font_signal_witness :
    3 ≤ (pyStrip (Block.mk "zzqq, xk." 1 14 0 none).text).length ∧
    avgFontSize pageBlocksC7 * (13/10) < (Block.mk "zzqq, xk." 1 14 0 none).font_size ∧
    is_quality_heading (Block.mk "zzqq, xk." 1 14 0 none) pageBlocksC7 ["english"] = true := by
  have h : avgFontSize pageBlocksC7 = 10 := by decide
  have hfont : avgFontSize pageBlocksC7 * (13/10) <
      (Block.mk "zzqq, xk." 1 14 0 none).font_size := by
    rw [h]; norm_num
  exact ⟨by decide, hfont,
    is_quality_heading_font_signal _ _ _ (by decide) (by decide)
      (List.cons_ne_nil _ _) hfont⟩

/-! ### More helper lemmas -/

theorem pyStripL_length_le (l : List Char) : (pyStripL l).length ≤ l.length := by
  unfold pyStripL
  calc ((l.dropWhile isSpaceCh).reverse.dropWhile isSpaceCh).reverse.length
      = ((l.dropWhile isSpaceCh).reverse.dropWhile isSpaceCh).length := List.length_reverse _
    _ ≤ (l.dropWhile isSpaceCh).reverse.length := (List.dropWhile_sublist _).length_le
    _ = (l.dropWhile isSpaceCh).length := List.length_reverse _
    _ ≤ l.length := (List.dropWhile_sublist _).length_le

theorem pyStrip_length_le (s : String) : (pyStrip s).length ≤ s.length :=
  pyStripL_length_le s.data

/-! ### C1 — the fallback guarantee -/

/-- A document with one non-empty, non-heading block whose accumulated content
is below the 50-character floor. -/
def docC1 : DocumentData :=
  { pages := [⟨[{ text := "aaaa. bbbb. cccc.", page := 1, font_size := 12, font_flags := 0 }]⟩] }

/-- C1 (counterexample): `docC1` has a non-empty block, yet `extract_sections`
returns no section at all — there is no per-page fallback in the code. -/
theorem extract_sections_no_fallback_counterexample :
    (∃ page ∈ docC1.pages, ∃ b ∈ page.blocks, b.text ≠ "") ∧
    (extract_sections docC1).length = 0 := by
  constructor
  · refine ⟨_, List.mem_singleton.mpr rfl, _, List.mem_singleton.mpr rfl, ?_⟩
    decide
  · decide

/-- C1 (amended): `extract_sections` emits exactly the accumulated sections
that pass the quality gate; it has no fallback, so (as the counterexample
shows) a document with non-empty blocks may produce zero sections.  Every
returned section satisfies `_is_quality_section`. -/
theorem extract_sections_quality_gate (doc : DocumentData) :
    ∀ s ∈ extract_sections doc, is_quality_section s = true := by
  intro s hs
  simp only [extract_sections] at hs
  split at hs
  · exact absurd hs (List.not_mem_nil s)
  · exact (List.mem_filter.mp hs).2

/-- A document producing one well-formed section whose single subsection has
an over-long summary (311 characters of content, two sentences). -/
def docC2 : DocumentData :=
  { pages := [⟨[
      { text := "Introduction", page := 1, font_size := 12, font_flags := 0 },
      { text := "This striped opening sentence keeps going with a very long stream of plain words so that the running total of characters stays quite large indeed. The second sentence also continues onward with many additional words so that the combined pair of sentences together passes the three hundred character cap easily.",
        page := 1, font_size := 12, font_flags := 0 }]⟩] }

set_option maxRecDepth 40000 in
/-- Concrete instantiation of `extract_sections_quality_gate` on `docC2`,
whose output is a single section. -/
theorem extract_sections_quality_gate_witness :
    (extract_sections docC2).length = 1 ∧
    (extract_sections docC2).all is_quality_section = true :=
  ⟨by decide, List.all_eq_true.mpr (fun s hs => extract_sections_quality_gate docC2 s hs)⟩

/-! ### C8 — subsection splitter counts -/

theorem buildSubsections_length_le (languages : List String) :
    ∀ (chunks : List (List String)) (acc : List Subsection), acc.length < 3 →
      (buildSubsections languages chunks acc).length ≤ 3 := by
  intro chunks
  induction chunks with
  | nil => intro acc hacc; exact Nat.le_of_lt (by simpa [buildSubsections] using hacc)
  | cons chunk rest ih =>
    intro acc hacc
    rw [buildSubsections]
    split
    · set acc2 := acc ++ [mkSubsection languages chunk] with hacc2
      have hlen : acc2.length = acc.length + 1 := by simp [hacc2]
      by_cases h3 : 3 ≤ acc2.length
      · rw [if_pos h3]
        omega
      · rw [if_neg h3]
        exact ih acc2 (by omega)
    · exact ih acc hacc

/-- C8: `_extract_quality_subsections` returns the empty sequence for content
shorter than 100 characters; for content whose stripped length reaches 100,
it returns exactly one subsection when at most 3 sentences survive the
split-and-filter; and it never returns more than 3 subsections. -/
theorem extract_quality_subsections_counts (content : String) (languages : List String) :
    (content.length < 100 → extract_quality_subsections content languages = []) ∧
    (100 ≤ (pyStrip content).length →
      (split_into_sentences content languages).length ≤ 3 →
      (extract_quality_subsections content languages).length = 1) ∧
    (extract_quality_subsections content languages).length ≤ 3 := by
  refine ⟨?_, ?_, ?_⟩
  · intro hshort
    have h : (pyStrip content).length < 100 :=
      Nat.lt_of_le_of_lt (pyStrip_length_le content) hshort
    rw [extract_quality_subsections, if_pos h]
  · intro hlong hsent
    rw [extract_quality_subsections, if_neg (Nat.not_lt_of_le hlong), if_pos hsent]
    rfl
  · simp only [extract_quality_subsections]
    split
    · simp
    · split
      · simp
      · exact buildSubsections_length_le _ _ [] (by decide)

/-- Concrete instantiation of `extract_quality_subsections_counts`: short
content gives no subsection; 100-plus-character content with two surviving
sentences gives exactly one. -/
theorem extract_quality_subsections_counts_witness :
    extract_quality_subsections "short text." ["english"] = [] ∧
    (extract_quality_subsections
      "This sentence is rather long and plainly meaningful to read. Another sentence follows it with some more detail here."
      ["english"]).length = 1 :=
  ⟨(extract_quality_subsections_counts _ _).1 (by decide),
   (extract_quality_subsections_counts _ _).2.1 (by decide) (by decide)⟩

/-! ### C2 — bounds on emitted sections and subsections -/

theorem pyTake_length_le (n : Nat) (s : String) : (pyTake n s).length ≤ n :=
  List.length_take_le n s.data

theorem clean_heading_text_length (t : String) : (clean_heading_text t).length ≤ 150 :=
  List.length_take_le 150 _

theorem cap303 (x : String) :
    (if 300 < x.length then pyTake 300 x ++ "..." else x).length ≤ 303 := by
  split
  · rw [String.length_append]
    have h := pyTake_length_le 300 x
    have h3 : ("..." : String).length = 3 := by decide
    omega
  · omega

theorem create_quality_summary_length (sents : List String) :
    (create_quality_summary sents).length ≤ 303 := by
  cases sents with
  | nil => simp [create_quality_summary, String.length]
  | cons s0 rest =>
    cases rest with
    | nil =>
      simp only [create_quality_summary, String.length_append]
      have h3 : ("..." : String).length = 3 := by decide
      have h : (pyTake 200 s0).length ≤ 200 := pyTake_length_le 200 s0
      omega
    | cons r0 rrest =>
      simp only [create_quality_summary]
      exact cap303 _

/-- Bounds satisfied by the title and subsections of every section the
segmenter can emit. -/
def SecShape (sec : Section) : Prop :=
  sec.title.length ≤ 150 ∧
  ∀ sub ∈ sec.subsections, sub.content.length ≤ 800 ∧ sub.summary.length ≤ 303

theorem mkSubsection_shape (langs : List String) (chunk : List String) :
    (mkSubsection langs chunk).content.length ≤ 800 ∧
    (mkSubsection langs chunk).summary.length ≤ 303 :=
  ⟨pyTake_length_le 800 _, create_quality_summary_length _⟩

theorem buildSubsections_shape (langs : List String) :
    ∀ (chunks : List (List String)) (acc : List Subsection),
      (∀ s ∈ acc, s.content.length ≤ 800 ∧ s.summary.length ≤ 303) →
      ∀ s ∈ buildSubsections langs chunks acc,
        s.content.length ≤ 800 ∧ s.summary.length ≤ 303 := by
  intro chunks
  induction chunks with
  | nil => intro acc hacc; simpa [buildSubsections] using hacc
  | cons chunk rest ih =>
    intro acc hacc
    simp only [buildSubsections]
    have hacc2 : ∀ s ∈ acc ++ [mkSubsection langs chunk],
        s.content.length ≤ 800 ∧ s.summary.length ≤ 303 := by
      intro s hs
      rcases List.mem_append.mp hs with h | h
      · exact hacc s h
      · rw [List.mem_singleton] at h
        subst h
        exact mkSubsection_shape langs chunk
    split
    · split
      · exact hacc2
      · exact ih _ hacc2
    · exact ih _ hacc

theorem extract_quality_subsections_shape (content : String) (langs : List String) :
    ∀ sub ∈ extract_quality_subsections content langs,
      sub.content.length ≤ 800 ∧ sub.summary.length ≤ 303 := by
  intro sub hsub
  simp only [extract_quality_subsections] at hsub
  split at hsub
  · exact absurd hsub (List.not_mem_nil sub)
  · split at hsub
    · rw [List.mem_singleton] at hsub
      subst hsub
      exact ⟨pyTake_length_le 800 _, create_quality_summary_length _⟩
    · exact buildSubsections_shape langs _ [] (by simp) sub hsub

theorem closeSection_shape (langs : List String) (sections : List Section) (cur : Section)
    (h1 : ∀ s ∈ sections, SecShape s) (ht : cur.title.length ≤ 150) :
    ∀ s ∈ closeSection langs sections cur, SecShape s := by
  intro s hs
  rw [closeSection] at hs
  split at hs
  · rcases List.mem_append.mp hs with h | h
    · exact h1 s h
    · rw [List.mem_singleton] at h
      subst h
      exact ⟨ht, fun sub hsub => extract_quality_subsections_shape _ _ sub hsub⟩
  · exact h1 s hs

/-- The invariant carried through the block fold of `extract_sections`. -/
def StepInv (st : List Section × Option Section) : Prop :=
  (∀ s ∈ st.1, SecShape s) ∧ (∀ c, st.2 = some c → c.title.length ≤ 150)

theorem foldl_inv {α β : Type} (f : β → α → β) (Inv : β → Prop)
    (hf : ∀ st a, Inv st → Inv (f st a)) :
    ∀ (l : List α) (st : β), Inv st → Inv (l.foldl f st) := by
  intro l
  induction l with
  | nil => intro st h; exact h
  | cons x xs ih => intro st h; exact ih _ (hf st x h)

theorem stepBlock_preserves (docLangs : List String) (pageBlocks : List Block)
    (st : List Section × Option Section) (b : Block) (h : StepInv st) :
    StepInv (stepBlock docLangs pageBlocks st b) := by
  obtain ⟨h1, h2⟩ := h
  rw [stepBlock]
  split
  · exact ⟨h1, h2⟩
  · split
    · refine ⟨?_, ?_⟩
      · cases hcur : st.2 with
        | none => simpa [hcur] using h1
        | some cur =>
          simp only [hcur]
          exact closeSection_shape docLangs st.1 cur h1 (h2 cur hcur)
      · intro c hc
        simp only [Option.some.injEq] at hc
        subst hc
        exact clean_heading_text_length _
    · cases hcur : st.2 with
      | none =>
        refine ⟨by simpa [hcur] using h1, ?_⟩
        intro c hc
        simp only [hcur, Option.some.injEq] at hc
        subst hc
        show ("Document Content" : String).length ≤ 150
        decide
      | some cur =>
        refine ⟨by simpa [hcur] using h1, ?_⟩
        intro c hc
        simp only [hcur, Option.some.injEq] at hc
        subst hc
        simpa using h2 cur hcur

theorem quality_section_content_ne (s : Section) (h : is_quality_section s = true) :
    s.content ≠ "" := by
  intro hc
  have h0 : (pyStrip ("" : String)).length < 50 := by decide
  rw [is_quality_section, hc, if_pos h0] at h
  exact Bool.false_ne_true h

/-- Every section produced by `extract_sections` passes the quality gate. -/
theorem mem_extract_sections_quality (doc : DocumentData) :
    ∀ s ∈ extract_sections doc, is_quality_section s = true := by
  intro s hs
  simp only [extract_sections] at hs
  split at hs
  · exact absurd hs (List.not_mem_nil s)
  · exact (List.mem_filter.mp hs).2

/-- Every section produced by `extract_sections` satisfies the title and
subsection bounds. -/
theorem mem_extract_sections_shape (doc : DocumentData) :
    ∀ s ∈ extract_sections doc, SecShape s := by
  intro s hs
  simp only [extract_sections] at hs
  split at hs
  · exact absurd hs (List.not_mem_nil s)
  · have hs1 := (List.mem_filter.mp hs).1
    set docLangs := doc.detected_languages.getD ["english"] with hdl
    have hInv : StepInv (doc.pages.foldl
        (fun st page => page.blocks.foldl (stepBlock docLangs page.blocks) st) ([], none)) := by
      refine foldl_inv _ StepInv ?_ doc.pages ([], none) ⟨by simp, by simp⟩
      intro st page hInv
      exact foldl_inv _ StepInv (fun st' b h' => stepBlock_preserves docLangs page.blocks st' b h')
        page.blocks st hInv
    revert hs1
    obtain ⟨h1, h2⟩ := hInv
    cases hcur : (doc.pages.foldl
        (fun st page => page.blocks.foldl (stepBlock docLangs page.blocks) st)
        ([], none)).2 with
    | none => intro hs1; simp only [hcur] at hs1; exact h1 s hs1
    | some cur =>
      intro hs1
      simp only [hcur] at hs1
      exact closeSection_shape cur.languages _ cur h1 (h2 cur hcur) s hs1

set_option maxRecDepth 40000 in
/-- C2 (counterexample): on `docC2` the claimed 300-character summary bound
fails — the code appends an ellipsis after truncating to 300, producing a
303-character summary. -/
theorem summary_cap_counterexample :
    ¬ (∀ sec ∈ extract_sections docC2, ∀ sub ∈ sec.subsections,
        sub.summary.length ≤ 300) := by
  decide

/-- C2 (amended): every section emitted by `extract_sections` has non-empty
content and a title of at most 150 characters, and every subsection it
carries has content of at most 800 characters and a summary of at most 303
characters (300 plus the three-character ellipsis marker). -/
theorem extract_sections_emission_bounds (doc : DocumentData) :
    ∀ sec ∈ extract_sections doc,
      sec.content ≠ "" ∧ sec.title.length ≤ 150 ∧
      ∀ sub ∈ sec.subsections, sub.content.length ≤ 800 ∧ sub.summary.length ≤ 303 := by
  intro sec hsec
  have hq := mem_extract_sections_quality doc sec hsec
  have hshape := mem_extract_sections_shape doc sec hsec
  exact ⟨quality_section_content_ne sec hq, hshape.1, hshape.2⟩

def defaultSection : Section :=
  { title := "", page := 0, level := 0, content := "", subsections := [], languages := [] }

/-- The single section extracted from `docC2`. -/
def secC2 : Section := (extract_sections docC2).getD 0 defaultSection

set_option maxRecDepth 40000 in
/-- Concrete instantiation of `extract_sections_emission_bounds` at the
section extracted from `docC2`. -/
theorem extract_sections_emission_bounds_witness :
    secC2 ∈ extract_sections docC2 ∧
    (secC2.content ≠ "" ∧ secC2.title.length ≤ 150 ∧
      ∀ sub ∈ secC2.subsections, sub.content.length ≤ 800 ∧ sub.summary.length ≤ 303) := by
  have hmem : secC2 ∈ extract_sections docC2 := by
    cases hl : extract_sections docC2 with
    | nil =>
      have : (extract_sections docC2).length = 1 := by decide
      rw [hl] at this
      exact absurd this (by decide)
    | cons a t =>
      rw [secC2, hl]
      exact List.mem_cons_self a t
  exact ⟨hmem, extract_sections_emission_bounds docC2 secC2 hmem⟩

/-! ### C3 — keyword monotonicity -/

/-- `j` additional space-separated occurrences of the keyword `k`, to be
appended to a section's content. -/
def occSuffix : Nat → String → String
  | 0, _ => ""
  | j+1, k => " " ++ k ++ occSuffix j k

/-- Character-level image of `occSuffix`. -/
def occL (kL : List Char) : Nat → List Char
  | 0 => []
  | j+1 => ' ' :: (kL ++ occL kL j)

theorem occSuffix_data (k : String) : ∀ j, (occSuffix j k).data = occL k.data j := by
  intro j
  induction j with
  | zero => rfl
  | succ j ih =>
    show ((" " ++ k ++ occSuffix j k)).data = ' ' :: (k.data ++ occL k.data j)
    rw [String.data_append, String.data_append, ih]
    rfl

theorem runsAux_append_sep {sep : Char} (hsep : isWordCh sep = false) (y : List Char) :
    ∀ (x acc : List Char),
      runsAux (x ++ sep :: y) acc = runsAux x acc ++ runsAux y [] := by
  intro x
  induction x with
  | nil =>
    intro acc
    cases hacc : acc.isEmpty <;> simp [runsAux, hsep, hacc]
  | cons c x' ih =>
    intro acc
    by_cases hc : isWordCh c
    · simp only [List.cons_append, runsAux, hc, if_true]
      exact ih (c :: acc)
    · by_cases hacc : acc.isEmpty
      · simp only [List.cons_append, runsAux, hc, Bool.false_eq_true, if_false, hacc, if_true]
        exact ih []
      · simp only [List.cons_append, runsAux, hc, Bool.false_eq_true, if_false, hacc,
          List.cons_append, List.append_eq]
        rw [ih []]

theorem runsAux_all_word :
    ∀ (k acc : List Char), k.all isWordCh = true → (acc ≠ [] ∨ k ≠ []) →
      runsAux k acc = [acc.reverse ++ k] := by
  intro k
  induction k with
  | nil =>
    intro acc _ hor
    have hacc : acc ≠ [] := by
      rcases hor with h | h
      · exact h
      · exact absurd rfl h
    have : acc.isEmpty = false := by simpa [List.isEmpty_iff] using hacc
    simp [runsAux, this]
  | cons c k' ih =>
    intro acc hall _
    have hc : isWordCh c = true := by
      have := List.all_eq_true.mp hall c (List.mem_cons_self c k')
      exact this
    have hall' : k'.all isWordCh = true := by
      rw [List.all_eq_true] at hall ⊢
      exact fun x hx => hall x (List.mem_cons_of_mem c hx)
    simp only [runsAux, hc, if_true]
    rw [ih (c :: acc) hall' (Or.inl (List.cons_ne_nil c acc))]
    simp

theorem splitRuns_append_sep {sep : Char} (hsep : isWordCh sep = false)
    (x y : List Char) : splitRuns (x ++ sep :: y) = splitRuns x ++ splitRuns y :=
  runsAux_append_sep hsep y x []

theorem splitRuns_all_word (k : List Char) (hne : k ≠ []) (hall : k.all isWordCh = true) :
    splitRuns k = [k] := by
  simpa [splitRuns] using runsAux_all_word k [] hall (Or.inr hne)

theorem splitRuns_occL (kL : List Char) (hword : kL.all isWordCh = true) (hne : kL ≠ []) :
    ∀ (j : Nat) (t : List Char),
      splitRuns (t ++ occL kL j) = splitRuns t ++ List.replicate j kL := by
  intro j
  induction j with
  | zero => intro t; simp [occL]
  | succ j ih =>
    intro t
    rw [occL, splitRuns_append_sep (by decide) t (kL ++ occL kL j), ih kL,
      splitRuns_all_word kL hne hword]
    simp [List.replicate_succ]

theorem tokensGe_occL (kL : List Char) (hword : kL.all isWordCh = true) (hne : kL ≠ [])
    (halpha : kL.all isAsciiAlphaCh = true) (hlen : 3 ≤ kL.length) (j : Nat)
    (t : List Char) :
    tokensGe 3 (t ++ occL kL j) = tokensGe 3 t ++ List.replicate j kL := by
  rw [tokensGe, tokensGe, splitRuns_occL kL hword hne j t, List.filter_append]
  congr 1
  rw [List.filter_replicate, if_pos]
  simp [halpha, hlen]

theorem pyLowerL_occL (kL : List Char) (hlow : pyLowerL kL = kL) :
    ∀ j, pyLowerL (occL kL j) = occL kL j := by
  intro j
  induction j with
  | zero => rfl
  | succ j ih =>
    show pyLowerL (' ' :: (kL ++ occL kL j)) = ' ' :: (kL ++ occL kL j)
    simp only [pyLowerL, List.map_cons, List.map_append]
    rw [show toLowerCh ' ' = ' ' from by decide]
    rw [← pyLowerL, ← pyLowerL, hlow, ih]

/-- Appending `j` space-separated occurrences of a lowercase alphabetic
keyword (length at least 3) to a section's content appends exactly `j` copies
of that keyword to the candidate's token list. -/
theorem sectionWords_addOcc (sec : Section) (k : String) (j : Nat)
    (hlow : pyLowerL k.data = k.data) (halpha : k.data.all isAsciiAlphaCh = true)
    (hlen : 3 ≤ k.data.length) :
    sectionWords { sec with content := sec.content ++ occSuffix j k }
      = sectionWords sec ++ List.replicate j k.data := by
  have hword : k.data.all isWordCh = true := by
    rw [List.all_eq_true] at halpha ⊢
    intro c hc
    have := halpha c hc
    simp only [isWordCh, Bool.or_eq_true]
    exact Or.inl (Or.inl this)
  have hne : k.data ≠ [] := by
    intro h
    rw [h] at hlen
    exact absurd hlen (by decide)
  show tokensGe 3 (pyLower (sec.title ++ " " ++ (sec.content ++ occSuffix j k))).data = _
  have hdata : (sec.title ++ " " ++ (sec.content ++ occSuffix j k)).data
      = (sec.title ++ " " ++ sec.content).data ++ occL k.data j := by
    simp [String.data_append, occSuffix_data, List.append_assoc]
  rw [pyLower, hdata, pyLowerL, List.map_append, ← pyLowerL, ← pyLowerL,
    pyLowerL_occL k.data hlow j]
  exact tokensGe_occL k.data hword hne halpha hlen j _

/-- C3 (amended): the raw lexical sum of `_calculate_keyword_relevance` (the
score before division by `ln(wordCount+1)`) never decreases when occurrences
of a query keyword are appended to the section's content (title fixed). -/
theorem raw_keyword_score_add_occurrences_mono (sec : Section) (keywords : List String)
    (k : String) (j : Nat) (hk : k ∈ keywords) (hlow : pyLowerL k.data = k.data)
    (halpha : k.data.all isAsciiAlphaCh = true) (hlen : 3 ≤ k.data.length) :
    raw_keyword_score sec keywords ≤
      raw_keyword_score { sec with content := sec.content ++ occSuffix j k } keywords := by
  have hwords := sectionWords_addOcc sec k j hlow halpha hlen
  rw [raw_keyword_score, raw_keyword_score, hwords]
  refine List.sum_le_sum ?_
  intro kw _
  have htitle : ({ sec with content := sec.content ++ occSuffix j k } : Section).title
      = sec.title := rfl
  rw [htitle]
  have hcount : ((sectionWords sec).count kw.data : ℚ)
      ≤ (((sectionWords sec ++ List.replicate j k.data).count kw.data : ℕ) : ℚ) := by
    rw [List.count_append]
    exact_mod_cast Nat.le_add_right _ _
  have hcountP : (((sectionWords sec).countP (fun w => partialMatch kw.data w) : ℕ) : ℚ)
      ≤ (((sectionWords sec ++ List.replicate j k.data).countP
          (fun w => partialMatch kw.data w) : ℕ) : ℚ) := by
    rw [List.countP_append]
    exact_mod_cast Nat.le_add_right _ _
  exact add_le_add (add_le_add
    (mul_le_mul_of_nonneg_right hcount (by norm_num))
    (mul_le_mul_of_nonneg_right hcountP (by norm_num))) le_rfl

/-- A section with the keyword `dog` in its title and empty content. -/
def secC3 : Section :=
  { title := "dog", page := 1, level := 1, content := "", subsections := [],
    languages := ["english"] }

/-- `secC3` with one occurrence of the query keyword `cat` appended to its
content. -/
def secC3' : Section := { secC3 with content := secC3.content ++ occSuffix 1 "cat" }

/-- C3 (counterexample): appending one occurrence of the query keyword `cat`
to `secC3`'s content strictly decreases `_calculate_keyword_relevance` — the
raw sum rises from 5.5 to 8, but the normaliser grows from `ln 2` to `ln 3`
and `8/ln 3 < 5.5/ln 2`. -/
theorem keyword_relevance_not_monotone :
    calculate_keyword_relevance secC3' ["dog", "cat"] <
      calculate_keyword_relevance secC3 ["dog", "cat"] := by
  have hwa : sectionWords secC3 = [("dog" : String).data] := by decide
  have hwb : sectionWords secC3' = [("dog" : String).data, ("cat" : String).data] := by decide
  have hra : raw_keyword_score secC3 ["dog", "cat"] = 11/2 := by
    have c1 : ([("dog" : String).data] : List (List Char)).count ("dog" : String).data = 1 := by
      decide
    have c2 : ([("dog" : String).data] : List (List Char)).count ("cat" : String).data = 0 := by
      decide
    have p1 : ([("dog" : String).data] : List (List Char)).countP
        (fun w => partialMatch ("dog" : String).data w) = 1 := by decide
    have p2 : ([("dog" : String).data] : List (List Char)).countP
        (fun w => partialMatch ("cat" : String).data w) = 0 := by decide
    have t1 : containsSubL (pyLower secC3.title).data ("dog" : String).data = true := by decide
    have t2 : containsSubL (pyLower secC3.title).data ("cat" : String).data = false := by decide
    simp only [raw_keyword_score, hwa, List.map_cons, List.map_nil, List.sum_cons,
      List.sum_nil, c1, c2, p1, p2, t1, t2]
    norm_num
  have hrb : raw_keyword_score secC3' ["dog", "cat"] = 8 := by
    have c1 : ([("dog" : String).data, ("cat" : String).data] : List (List Char)).count
        ("dog" : String).data = 1 := by decide
    have c2 : ([("dog" : String).data, ("cat" : String).data] : List (List Char)).count
        ("cat" : String).data = 1 := by decide
    have p1 : ([("dog" : String).data, ("cat" : String).data] : List (List Char)).countP
        (fun w => partialMatch ("dog" : String).data w) = 1 := by decide
    have p2 : ([("dog" : String).data, ("cat" : String).data] : List (List Char)).countP
        (fun w => partialMatch ("cat" : String).data w) = 1 := by decide
    have t1 : containsSubL (pyLower secC3'.title).data ("dog" : String).data = true := by decide
    have t2 : containsSubL (pyLower secC3'.title).data ("cat" : String).data = false := by decide
    simp only [raw_keyword_score, hwb, List.map_cons, List.map_nil, List.sum_cons,
      List.sum_nil, c1, c2, p1, p2, t1, t2]
    norm_num
  have hna : (sectionWords secC3).length = 1 := by rw [hwa]; rfl
  have hnb : (sectionWords secC3').length = 2 := by rw [hwb]; rfl
  have ea : calculate_keyword_relevance secC3 ["dog", "cat"] = (11/2 : ℝ) / Real.log 2 := by
    simp only [calculate_keyword_relevance, hna, hra]
    norm_num
  have eb : calculate_keyword_relevance secC3' ["dog", "cat"] = (8 : ℝ) / Real.log 3 := by
    simp only [calculate_keyword_relevance, hnb, hrb]
    norm_num
  rw [ea, eb]
  have h2 : (0:ℝ) < Real.log 2 := Real.log_pos (by norm_num)
  have h3 : (0:ℝ) < Real.log 3 := Real.log_pos (by norm_num)
  rw [div_lt_div_iff h3 h2]
  have e2 := Real.log_pow 2 16
  have e3 := Real.log_pow 3 11
  push_cast at e2 e3
  have hlt : Real.log ((2:ℝ)^16) < Real.log ((3:ℝ)^11) :=
    Real.log_lt_log (by positivity) (by norm_num)
  linarith [hlt, e2, e3]

/-- Concrete instantiation of `raw_keyword_score_add_occurrences_mono`: one
extra `cat` in `secC3`'s content does not decrease the raw sum. -/
theorem raw_keyword_score_add_occurrences_mono_witness :
    ("cat" ∈ (["dog", "cat"] : List String)) ∧
    raw_keyword_score secC3 ["dog", "cat"] ≤ raw_keyword_score secC3' ["dog", "cat"] :=
  ⟨by decide,
   raw_keyword_score_add_occurrences_mono secC3 ["dog", "cat"] "cat" 1
     (by decide) (by decide) (by decide) (by decide)⟩

/-! ### Structural lemmas about `match_sections` -/

instance : IsTotal Subsection subDesc := ⟨fun a b => le_total (subKey b) (subKey a)⟩

instance : IsTrans Subsection subDesc :=
  ⟨fun _ _ _ h1 h2 => le_trans h2 h1⟩

instance : IsTotal Section secDesc := ⟨fun a b => le_total (secKey b) (secKey a)⟩

instance : IsTrans Section secDesc :=
  ⟨fun _ _ _ h1 h2 => le_trans h2 h1⟩

theorem Subsection.setScore_self (sub : Subsection) (r : Option ℝ)
    (h : sub.relevance_score = r) : { sub with relevance_score := r } = sub := by
  cases sub
  simp only at h
  subst h
  rfl

theorem Section.setRank_self (s : Section) (r : Option Nat)
    (h : s.importance_rank = r) : { s with importance_rank := r } = s := by
  cases s
  simp only at h
  subst h
  rfl

theorem Section.setScoreSubs_self (s : Section) (r : Option ℝ) (subs : List Subsection)
    (h1 : s.relevance_score = r) (h2 : s.subsections = subs) :
    { s with relevance_score := r, subsections := subs } = s := by
  cases s
  simp only at h1 h2
  subst h1
  subst h2
  rfl

theorem match_sections_length (model : Option Enc) (secs : List Section)
    (persona job : String) :
    (match_sections model secs persona job).length = min 15 secs.length := by
  rw [match_sections]
  split
  · rename_i h
    rw [List.isEmpty_iff.mp h]
    rfl
  · simp [rankAssign, List.length_mapIdx, List.length_take, List.length_insertionSort]

theorem rankAssign_map_rank (l : List Section) :
    (rankAssign l).map (fun s => s.importance_rank)
      = (List.range l.length).map (fun i => some (i + 1)) := by
  apply List.ext_getElem
  · simp [rankAssign, List.length_mapIdx]
  · intro i h1 h2
    simp [rankAssign, List.mapIdx_eq_enum_map, List.getElem_map, List.getElem_enum,
      List.getElem_range]

theorem rankAssign_rank_getElem (l : List Section) (i : Nat)
    (h : i < (rankAssign l).length) :
    (rankAssign l)[i].importance_rank = some (i + 1) := by
  simp [rankAssign, List.mapIdx_eq_enum_map, List.getElem_map, List.getElem_enum]

theorem rankAssign_getElem (l : List Section) (i : Nat)
    (h : i < (rankAssign l).length) (h' : i < l.length) :
    (rankAssign l)[i] = { l[i] with importance_rank := some (i + 1) } := by
  simp [rankAssign, List.mapIdx_eq_enum_map, List.getElem_map, List.getElem_enum]

theorem calculate_keyword_relevance_congr (kws : List String) (s₁ s₂ : Section)
    (ht : s₁.title = s₂.title) (hc : s₁.content = s₂.content) :
    calculate_keyword_relevance s₁ kws = calculate_keyword_relevance s₂ kws := by
  simp only [calculate_keyword_relevance, raw_keyword_score, sectionWords, ht, hc]

theorem sectionRelevance_congr (model : Option Enc) (kws : List String)
    (persona job : String) (s₁ s₂ : Section)
    (ht : s₁.title = s₂.title) (hc : s₁.content = s₂.content) :
    sectionRelevance model kws persona job s₁ = sectionRelevance model kws persona job s₂ := by
  have hk := calculate_keyword_relevance_congr kws s₁ s₂ ht hc
  cases model with
  | none => simpa [sectionRelevance] using hk
  | some enc => simp only [sectionRelevance, calculate_semantic_similarity, ht, hc, hk]

theorem calculate_subsection_relevance_congr (kws : List String) (s₁ s₂ : Subsection)
    (hc : s₁.content = s₂.content) :
    calculate_subsection_relevance s₁ kws = calculate_subsection_relevance s₂ kws := by
  simp only [calculate_subsection_relevance, raw_subsection_score, subsectionWords, hc]

/-- The self-referential facts true of every scored subsection. -/
def SubInv (kws : List String) (sub : Subsection) : Prop :=
  sub.relevance_score = some (calculate_subsection_relevance sub kws)

/-- The self-referential facts true of every section in `match_sections`'s
output: its stored score is its own recomputed score, and its subsections are
scored, sorted descending and at most 3. -/
def SecInv (model : Option Enc) (kws : List String) (persona job : String)
    (s : Section) : Prop :=
  s.relevance_score = some (sectionRelevance model kws persona job s) ∧
  (∀ sub ∈ s.subsections, SubInv kws sub) ∧
  List.Sorted subDesc s.subsections ∧
  s.subsections.length ≤ 3

theorem scoreSubsections_spec (kws : List String) (subs : List Subsection) :
    (∀ sub ∈ scoreSubsections kws subs, SubInv kws sub) ∧
    List.Sorted subDesc (scoreSubsections kws subs) ∧
    (scoreSubsections kws subs).length ≤ 3 := by
  refine ⟨?_, ?_, ?_⟩
  · intro sub hsub
    rw [scoreSubsections] at hsub
    have hsub1 := (List.take_sublist 3 _).subset hsub
    have hsub2 := (List.perm_insertionSort subDesc _).mem_iff.mp hsub1
    obtain ⟨s₀, _, rfl⟩ := List.mem_map.mp hsub2
    show Option.some _ = _
    rw [calculate_subsection_relevance_congr kws
      { s₀ with relevance_score := some (calculate_subsection_relevance s₀ kws) } s₀ rfl]
  · rw [scoreSubsections]
    exact (List.sorted_insertionSort subDesc _).sublist (List.take_sublist 3 _)
  · rw [scoreSubsections]
    simp [List.length_take]

theorem scoreSection_inv (model : Option Enc) (kws : List String) (persona job : String)
    (sec : Section) : SecInv model kws persona job (scoreSection model kws persona job sec) := by
  refine ⟨?_, (scoreSubsections_spec kws sec.subsections).1,
    (scoreSubsections_spec kws sec.subsections).2.1,
    (scoreSubsections_spec kws sec.subsections).2.2⟩
  show Option.some _ = _
  rw [sectionRelevance_congr model kws persona job
    (scoreSection model kws persona job sec) sec rfl rfl]

theorem SecInv_setRank (model : Option Enc) (kws : List String) (persona job : String)
    (s : Section) (r : Option Nat) (h : SecInv model kws persona job s) :
    SecInv model kws persona job { s with importance_rank := r } := by
  obtain ⟨h1, h2, h3, h4⟩ := h
  refine ⟨?_, h2, h3, h4⟩
  show s.relevance_score = _
  rw [sectionRelevance_congr model kws persona job
    { s with importance_rank := r } s rfl rfl]
  exact h1

theorem match_sections_eq_rankAssign (model : Option Enc) (secs : List Section)
    (persona job : String) (h : secs ≠ []) :
    match_sections model secs persona job
      = rankAssign (((secs.map
          (scoreSection model (extract_dynamic_keywords persona job) persona job)).insertionSort
            secDesc).take 15) := by
  rw [match_sections, if_neg]
  simpa [List.isEmpty_iff] using h

theorem mem_match_sections_inv (model : Option Enc) (secs : List Section)
    (persona job : String) :
    ∀ s ∈ match_sections model secs persona job,
      SecInv model (extract_dynamic_keywords persona job) persona job s := by
  intro s hs
  by_cases hsecs : secs = []
  · subst hsecs
    rw [match_sections] at hs
    exact absurd hs (by simp)
  · rw [match_sections_eq_rankAssign model secs persona job hsecs, rankAssign,
      List.mapIdx_eq_enum_map] at hs
    obtain ⟨⟨i, s'⟩, hmem, rfl⟩ := List.mem_map.mp hs
    rw [List.enum_eq_zip_range] at hmem
    have hs' := (List.of_mem_zip hmem).2
    have hs'' := (List.take_sublist 15 _).subset hs'
    have hs''' := (List.perm_insertionSort secDesc _).mem_iff.mp hs''
    obtain ⟨s₀, _, rfl⟩ := List.mem_map.mp hs'''
    exact SecInv_setRank _ _ _ _ _ _ (scoreSection_inv _ _ _ _ s₀)

theorem match_sections_sorted (model : Option Enc) (secs : List Section)
    (persona job : String) :
    List.Sorted secDesc (match_sections model secs persona job) := by
  by_cases hsecs : secs = []
  · subst hsecs
    rw [match_sections]
    simp
  · rw [match_sections_eq_rankAssign model secs persona job hsecs]
    have h2 : List.Sorted secDesc (((secs.map
        (scoreSection model (extract_dynamic_keywords persona job) persona job)).insertionSort
          secDesc).take 15) :=
      (List.sorted_insertionSort secDesc _).sublist (List.take_sublist 15 _)
    rw [List.Sorted, List.pairwise_iff_getElem] at h2 ⊢
    intro i j hi hj hij
    have hi' : i < (((secs.map
        (scoreSection model (extract_dynamic_keywords persona job) persona job)).insertionSort
          secDesc).take 15).length := by
      simpa [rankAssign, List.length_mapIdx] using hi
    have hj' : j < (((secs.map
        (scoreSection model (extract_dynamic_keywords persona job) persona job)).insertionSort
          secDesc).take 15).length := by
      simpa [rankAssign, List.length_mapIdx] using hj
    rw [rankAssign_getElem _ i hi hi', rankAssign_getElem _ j hj hj']
    exact h2 i j hi' hj' hij

theorem rankAssign_of_ranked (l : List Section)
    (h : ∀ (i : Nat) (hi : i < l.length), l[i].importance_rank = some (i + 1)) :
    rankAssign l = l := by
  apply List.ext_getElem
  · simp [rankAssign, List.length_mapIdx]
  · intro i h1 h2
    rw [rankAssign_getElem l i h1 h2]
    exact Section.setRank_self _ _ (h i h2)

theorem match_sections_rank_stored (model : Option Enc) (secs : List Section)
    (persona job : String) (i : Nat) (h : i < (match_sections model secs persona job).length) :
    (match_sections model secs persona job)[i].importance_rank = some (i + 1) := by
  by_cases hsecs : secs = []
  · subst hsecs
    rw [match_sections] at h
    simp at h
  · rw [List.getElem_of_eq (match_sections_eq_rankAssign model secs persona job hsecs)]
    exact rankAssign_rank_getElem _ i _

/-! ### C5 — top-K length and dense ranks -/

/-- C5: `match_sections` returns exactly `min 15 n` sections for `n` input
sections, and the `importance_rank` fields of the result are exactly
`1, 2, ..., len(result)` in order. -/
theorem match_sections_topk (model : Option Enc) (secs : List Section)
    (persona job : String) :
    (match_sections model secs persona job).length = min 15 secs.length ∧
    (match_sections model secs persona job).map (fun s => s.importance_rank)
      = (List.range (min 15 secs.length)).map (fun i => some (i + 1)) := by
  refine ⟨match_sections_length model secs persona job, ?_⟩
  apply List.ext_getElem
  · simp [match_sections_length model secs persona job]
  · intro i h1 h2
    rw [List.getElem_map, List.getElem_map, List.getElem_range]
    exact match_sections_rank_stored model secs persona job i
      (by simpa using h1)

/-! ### C6 — idempotence of ranking -/

/-- C6: applying `match_sections` to its own output with the same persona and
task reproduces exactly the same list — same section order, same subsection
order, same scores and same importance ranks. -/
theorem match_sections_idempotent (model : Option Enc) (secs : List Section)
    (persona job : String) :
    match_sections model (match_sections model secs persona job) persona job
      = match_sections model secs persona job := by
  by_cases hsecs : secs = []
  · subst hsecs
    have h0 : match_sections model [] persona job = [] := by
      rw [match_sections]
      rfl
    rw [h0, h0]
  · set kws := extract_dynamic_keywords persona job with hkws
    set out := match_sections model secs persona job with hout
    have hinv : ∀ s ∈ out, SecInv model kws persona job s :=
      mem_match_sections_inv model secs persona job
    have hsorted : List.Sorted secDesc out := match_sections_sorted model secs persona job
    have hlen : out.length ≤ 15 := by
      rw [hout, match_sections_length]
      exact min_le_left 15 _
    have hranks : ∀ (i : Nat) (hi : i < out.length), out[i].importance_rank = some (i + 1) :=
      fun i hi => match_sections_rank_stored model secs persona job i hi
    by_cases ho : out = []
    · rw [ho]
      rw [match_sections]
      rfl
    · rw [match_sections_eq_rankAssign model out persona job ho]
      have hmap : out.map (scoreSection model kws persona job) = out := by
        conv_rhs => rw [← List.map_id out]
        apply List.map_congr_left
        intro s hsmem
        obtain ⟨h1, h2, h3, h4⟩ := hinv s hsmem
        show scoreSection model kws persona job s = s
        rw [scoreSection]
        apply Section.setScoreSubs_self
        · exact h1
        · rw [scoreSubsections]
          have hm : s.subsections.map (fun sub =>
              { sub with relevance_score := some (calculate_subsection_relevance sub kws) })
              = s.subsections := by
            conv_rhs => rw [← List.map_id s.subsections]
            apply List.map_congr_left
            intro sub hsub
            exact Subsection.setScore_self sub _ (h2 sub hsub)
          rw [hm, h3.insertionSort_eq]
          exact (List.take_of_length_le h4).symm
      rw [← hkws, hmap, hsorted.insertionSort_eq, List.take_of_length_le hlen]
      exact rankAssign_of_ranked out hranks

/-! ### C4 — degradation when the semantic capability is absent or errors -/

/-- An embedding capability whose every call raises. -/
def errEnc : Enc := fun _ => Except.error ()

theorem match_sections_score_lexical (secs : List Section) (persona job : String) :
    ∀ s ∈ match_sections none secs persona job,
      s.relevance_score
        = some (calculate_keyword_relevance s (extract_dynamic_keywords persona job)) := by
  intro s hs
  have h1 := (mem_match_sections_inv none secs persona job s hs).1
  rw [h1]
  rfl

theorem match_sections_score_error (enc : Enc) (secs : List Section) (persona job : String)
    (herr : ∀ q, enc q = Except.error ()) :
    ∀ s ∈ match_sections (some enc) secs persona job,
      s.relevance_score
        = some ((3/10) * calculate_keyword_relevance s (extract_dynamic_keywords persona job)) := by
  intro s hs
  have h1 := (mem_match_sections_inv (some enc) secs persona job s hs).1
  rw [h1]
  have hsem : calculate_semantic_similarity enc s persona job = 0 := by
    rw [calculate_semantic_similarity, herr (persona ++ " " ++ job)]
  show some (sectionRelevance (some enc) _ persona job s) = _
  rw [sectionRelevance]
  rw [hsem]
  norm_num

/-- C4 (amended): when the semantic capability is absent the relevance score
is the lexical score, unscaled; when the capability is present but raises on
every call, the score is `0.3 ×` the lexical score (the `0.7` semantic share
collapses to zero, but the `0.3` scaling of the blend remains).  In either
case `match_sections` is a total function — no error escapes the scorer. -/
theorem scorer_degradation (secs : List Section) (persona job : String) (enc : Enc)
    (herr : ∀ q, enc q = Except.error ()) :
    (∀ s ∈ match_sections none secs persona job,
      s.relevance_score
        = some (calculate_keyword_relevance s (extract_dynamic_keywords persona job))) ∧
    (∀ s ∈ match_sections (some enc) secs persona job,
      s.relevance_score
        = some ((3/10) * calculate_keyword_relevance s (extract_dynamic_keywords persona job))) :=
  ⟨match_sections_score_lexical secs persona job,
   match_sections_score_error enc secs persona job herr⟩

/-- The single section returned by `match_sections` on `[secC3]` under the
always-raising capability. -/
noncomputable def secC4out : Section :=
  (match_sections (some errEnc) [secC3] "dog" "").getD 0 defaultSection

theorem match_sections_errEnc_secC3 :
    match_sections (some errEnc) [secC3] "dog" ""
      = [{ scoreSection (some errEnc) (extract_dynamic_keywords "dog" "") "dog" "" secC3 with
            importance_rank := some 1 }] := by
  rw [match_sections_eq_rankAssign (some errEnc) [secC3] "dog" "" (List.cons_ne_nil _ _)]
  rfl

theorem secC4out_mem : secC4out ∈ match_sections (some errEnc) [secC3] "dog" "" := by
  rw [secC4out, match_sections_errEnc_secC3]
  simp

theorem secC4out_fields : secC4out.title = secC3.title ∧ secC4out.content = secC3.content := by
  rw [secC4out, match_sections_errEnc_secC3]
  exact ⟨rfl, rfl⟩

theorem keyword_relevance_pos (sec : Section) (kws : List String)
    (hraw : 0 < raw_keyword_score sec kws) (hn : 0 < (sectionWords sec).length) :
    0 < calculate_keyword_relevance sec kws := by
  rw [calculate_keyword_relevance]
  simp only [hn, if_pos]
  apply div_pos
  · exact_mod_cast hraw
  · apply Real.log_pos
    have h1 : (1:ℝ) ≤ ((sectionWords sec).length : ℝ) := by exact_mod_cast hn
    linarith

theorem secC3_lexical_pos :
    0 < calculate_keyword_relevance secC3 (extract_dynamic_keywords "dog" "") := by
  have hkws : extract_dynamic_keywords "dog" "" = ["dog"] := by decide
  rw [hkws]
  apply keyword_relevance_pos
  · have hwa : sectionWords secC3 = [("dog" : String).data] := by decide
    have c1 : ([("dog" : String).data] : List (List Char)).count ("dog" : String).data = 1 := by
      decide
    have p1 : ([("dog" : String).data] : List (List Char)).countP
        (fun w => partialMatch ("dog" : String).data w) = 1 := by decide
    have t1 : containsSubL (pyLower secC3.title).data ("dog" : String).data = true := by decide
    simp only [raw_keyword_score, hwa, List.map_cons, List.map_nil, List.sum_cons,
      List.sum_nil, c1, p1, t1]
    norm_num
  · have hwa : sectionWords secC3 = [("dog" : String).data] := by decide
    rw [hwa]
    decide

/-- C4 (counterexample): with a present-but-raising capability the relevance
score is not the unscaled lexical score — on `[secC3]` the output's score is
`0.3 ×` lexical, and lexical is strictly positive. -/
theorem semantic_error_not_unscaled_counterexample :
    ¬ (∀ s ∈ match_sections (some errEnc) [secC3] "dog" "",
        s.relevance_score
          = some (calculate_keyword_relevance s (extract_dynamic_keywords "dog" ""))) := by
  intro hall
  have h1 := hall secC4out secC4out_mem
  have h2 := match_sections_score_error errEnc [secC3] "dog" "" (fun _ => rfl)
    secC4out secC4out_mem
  have h3 : calculate_keyword_relevance secC4out (extract_dynamic_keywords "dog" "")
      = (3/10) * calculate_keyword_relevance secC4out (extract_dynamic_keywords "dog" "") :=
    Option.some.inj (h1.symm.trans h2)
  have h4 : calculate_keyword_relevance secC4out (extract_dynamic_keywords "dog" "")
      = calculate_keyword_relevance secC3 (extract_dynamic_keywords "dog" "") :=
    calculate_keyword_relevance_congr _ _ _ secC4out_fields.1 secC4out_fields.2
  have h5 := secC3_lexical_pos
  rw [h4] at h3
  linarith

/-- Concrete instantiation of `scorer_degradation` with the always-raising
capability `errEnc` and the singleton input `[secC3]`. -/
theorem scorer_degradation_witness :
    (errEnc "query" = Except.error ()) ∧
    secC4out ∈ match_sections (some errEnc) [secC3] "dog" "" ∧
    secC4out.relevance_score
      = some ((3/10) * calculate_keyword_relevance secC4out
          (extract_dynamic_keywords "dog" "")) :=
  ⟨rfl, secC4out_mem,
   (scorer_degradation [secC3] "dog" "" errEnc (fun _ => rfl)).2 secC4out secC4out_mem⟩

/-! ### C10 — `match_sections` does not mutate its input -/

/-- Heap extension: addresses below `h₀.next` (all objects existing before
the call) are unchanged, and no address is reused. -/
def FrameLe {S : Type} (h₀ h : PyHeap S) : Prop :=
  h₀.next ≤ h.next ∧ ∀ a < h₀.next, h.mem a = h₀.mem a

theorem FrameLe.refl {S : Type} (h : PyHeap S) : FrameLe h h :=
  ⟨le_refl _, fun _ _ => rfl⟩

theorem FrameLe.trans {S : Type} {h₀ h₁ h₂ : PyHeap S}
    (f1 : FrameLe h₀ h₁) (f2 : FrameLe h₁ h₂) : FrameLe h₀ h₂ :=
  ⟨le_trans f1.1 f2.1, fun a ha => (f2.2 a (Nat.lt_of_lt_of_le ha f1.1)).trans (f1.2 a ha)⟩

theorem frame_halloc {S : Type} (h : PyHeap S) (d : PyDict S) :
    FrameLe h (halloc h d).2 := by
  refine ⟨Nat.le_succ _, fun a ha => ?_⟩
  show (if a = h.next then d else h.mem a) = h.mem a
  rw [if_neg (Nat.ne_of_lt ha)]

theorem frame_hset {S : Type} {h₀ h : PyHeap S} (hf : FrameLe h₀ h) {a₀ : Nat}
    (ha₀ : h₀.next ≤ a₀) (k : String) (v : PyVal S) : FrameLe h₀ (hset h a₀ k v) := by
  refine ⟨hf.1, fun a ha => ?_⟩
  show (if a = a₀ then dSet (h.mem a) k v else h.mem a) = h₀.mem a
  rw [if_neg (Nat.ne_of_lt (Nat.lt_of_lt_of_le ha ha₀))]
  exact hf.2 a ha

theorem scoreSubsCopies_frame {S : Type} (g : PyDict S → S) (h₀ : PyHeap S) :
    ∀ (subIds : List Nat) (st : List Nat × PyHeap S),
      FrameLe h₀ st.2 → FrameLe h₀ (subIds.foldl
        (fun acc sid =>
          let sd := acc.2.mem sid
          let alloc := halloc acc.2 sd
          (acc.1 ++ [alloc.1], hset alloc.2 alloc.1 "relevance_score" (.score (g sd))))
        st).2 := by
  intro subIds
  induction subIds with
  | nil => intro st hf; exact hf
  | cons sid rest ih =>
    intro st hf
    rw [List.foldl_cons]
    apply ih
    refine FrameLe.trans hf (frame_hset (frame_halloc st.2 _) ?_ _ _)
    exact le_refl _

theorem processSectionH_spec {S : Type} [Inhabited S] [LinearOrder S]
    (f g : PyDict S → S) (h : PyHeap S) (sid : Nat) :
    (processSectionH f g h sid).1 = h.next ∧ FrameLe h (processSectionH f g h sid).2 := by
  have f2 : FrameLe h (hset (halloc h (h.mem sid)).2 (halloc h (h.mem sid)).1
      "relevance_score" (.score (f (h.mem sid)))) :=
    frame_hset (frame_halloc h _) (le_refl h.next) _ _
  constructor
  · rfl
  · simp only [processSectionH]
    refine frame_hset ?_ (le_refl h.next) _ _
    rw [scoreSubsCopies]
    exact scoreSubsCopies_frame g h _ ([], _) f2

theorem sections_fold_spec {S : Type} [Inhabited S] [LinearOrder S]
    (f g : PyDict S → S) (h₀ : PyHeap S) :
    ∀ (ids : List Nat) (st : List Nat × PyHeap S),
      FrameLe h₀ st.2 → (∀ c ∈ st.1, h₀.next ≤ c) →
      FrameLe h₀ (ids.foldl
        (fun acc sid =>
          let pr := processSectionH f g acc.2 sid
          (acc.1 ++ [pr.1], pr.2)) st).2 ∧
      ∀ c ∈ (ids.foldl
        (fun acc sid =>
          let pr := processSectionH f g acc.2 sid
          (acc.1 ++ [pr.1], pr.2)) st).1, h₀.next ≤ c := by
  intro ids
  induction ids with
  | nil => intro st hf hc; exact ⟨hf, hc⟩
  | cons sid rest ih =>
    intro st hf hc
    rw [List.foldl_cons]
    apply ih
    · exact FrameLe.trans hf (processSectionH_spec f g st.2 sid).2
    · intro c hcmem
      rcases List.mem_append.mp hcmem with hcl | hcr
      · exact hc c hcl
      · rw [List.mem_singleton] at hcr
        subst hcr
        rw [(processSectionH_spec f g st.2 sid).1]
        exact hf.1

theorem foldlIdx_rank_frame {S : Type} (h₀ : PyHeap S) :
    ∀ (ids : List Nat) (h : PyHeap S) (i : Nat),
      (∀ c ∈ ids, h₀.next ≤ c) → FrameLe h₀ h →
      FrameLe h₀ (List.foldlIdx
        (fun i hh a => hset hh a "importance_rank" (.int (i + 1))) h ids i) := by
  intro ids
  induction ids with
  | nil => intro h i _ hf; exact hf
  | cons c cs ih =>
    intro h i hids hf
    rw [List.foldlIdx]
    apply ih
    · exact fun c' hc' => hids c' (List.mem_cons_of_mem _ hc')
    · exact frame_hset hf (hids c (List.mem_cons_self _ _)) _ _

/-- C10: `match_sections` never mutates the dicts that existed before the
call.  In the store-passing model, every address allocated before the call
(in particular every input section dict, its subsection list, and every
subsection dict) holds exactly the same key–value items afterwards; scores
and ranks are written only to freshly allocated copies. -/
theorem match_sections_heap_no_mutation {S : Type} [Inhabited S] [LinearOrder S]
    (f g : PyDict S → S) (sectionIds : List Nat) (h : PyHeap S) (a : Nat)
    (ha : a < h.next) :
    ((match_sections_heap f g sectionIds h).2).mem a = h.mem a := by
  rw [match_sections_heap]
  split
  · rfl
  · have hspec := sections_fold_spec f g h sectionIds ([], h) (FrameLe.refl h)
      (by intro c hc; exact absurd hc (List.not_mem_nil c))
    set scored := sectionIds.foldl
      (fun acc sid =>
        let pr := processSectionH f g acc.2 sid
        (acc.1 ++ [pr.1], pr.2)) (([], h) : List Nat × PyHeap S) with hscored
    have htop : ∀ c ∈ ((scored.1.insertionSort
        (fun a b => scoreAt scored.2 b ≤ scoreAt scored.2 a)).take 15), h.next ≤ c := by
      intro c hc
      have hc1 := (List.take_sublist 15 _).subset hc
      have hc2 := (List.perm_insertionSort _ scored.1).mem_iff.mp hc1
      exact hspec.2 c hc2
    have hfinal := foldlIdx_rank_frame h _ scored.2 0 htop hspec.1
    exact hfinal.2 a ha

/-- A two-object heap: the section dict at address 0 with one subsection
dict at address 1. -/
def heapC10 : PyHeap ℚ :=
  { mem := fun i =>
      if i = 0 then
        [("title", .str "Introduction"), ("content", .str "Some body text."),
         ("subsections", .objs [1])]
      else if i = 1 then
        [("content", .str "A subsection."), ("summary", .str "A summary.")]
      else [],
    next := 2 }

/-- Concrete instantiation of `match_sections_heap_no_mutation`: the input
section dict at address 0 of `heapC10` is unchanged by the call. -/
theorem match_sections_heap_no_mutation_witness :
    (0 < heapC10.next) ∧
    ((match_sections_heap (fun _ => (0:ℚ)) (fun _ => (0:ℚ)) [0] heapC10).2).mem 0
      = heapC10.mem 0 :=
  ⟨by decide,
   match_sections_heap_no_mutation (fun _ => (0:ℚ)) (fun _ => (0:ℚ)) [0] heapC10 0 (by decide)⟩
